import Mathlib

/-!
Verification of the content-security-toolkit core against its specification.

The development shallowly embeds the event mediator (`ContentProtectionMediator`),
the overlay coordinator (`SecurityOverlayManager`), the content-state coordinator
(`ProtectedContentManager`), the detection strategies (`DevToolsStrategy`,
`ExtensionStrategy`) and the per-feature event handlers
(`DevToolsEventHandler`, `BrowserExtensionEventHandler`,
`FrameEmbeddingEventHandler`, `ScreenshotEventHandler`).

Modelling conventions, applied throughout:
* JavaScript is single threaded; each method becomes a pure state-passing
  function returning its result together with the updated state.
* `Date.now()` is modelled by a strictly increasing tick counter carried in
  the state (each call happens at a distinct millisecond).
* JS `Map` objects are association lists kept in insertion order, matching
  the iteration order guarantee of `Map`.
* DOM side effects (creating or detaching nodes, CSS, timers, observers) are
  dropped; `isBrowser()` is taken to be `true` (the non-browser early-return
  paths are no-ops and are noted where they occur). Element presence is
  reflected by the `isVisible` flag exactly as the source keeps them in sync.
* JS `Array.prototype.sort` is stable (ES2019); it is modelled by a stable
  insertion sort using the same comparator.
-/

namespace ContentSecurityToolkit

/-! ## Content-state coordinator: `ProtectedContentManager` (src/unnamed/part_007)

The target element is modelled by its `innerHTML` string; a `none` target
models a falsy `this.targetElement`. DOM styling inside the placeholder is
reproduced as the string the source builds (whitespace condensed). -/

/-- Options for the protected content placeholder (`PlaceholderOptions`). -/
structure PlaceholderOptions where
  title : Option String := none
  message : Option String := none
  secondaryMessage : Option String := none
  textColor : Option String := none
  backgroundColor : Option String := none
deriving Repr, DecidableEq

/-- Inline style string built from `placeholderStyles` in `hideContent`;
`options.textColor || "white"` and `options.backgroundColor || "rgba(0, 0, 0, 0.05)"`
are the only option-dependent entries. -/
def placeholderStyleString (opts : PlaceholderOptions) : String :=
  "padding: 20px; textAlign: center; color: " ++ opts.textColor.getD "white"
    ++ "; backgroundColor: " ++ opts.backgroundColor.getD "rgba(0, 0, 0, 0.05)"
    ++ "; borderRadius: 8px; margin: 20px; boxShadow: 0 2px 10px rgba(0, 0, 0, 0.1)"

/-- Placeholder markup assigned to `targetElement.innerHTML` by `hideContent`
(template literal of the source, whitespace condensed). -/
def placeholderHTML (opts : PlaceholderOptions) : String :=
  let tc := opts.textColor.getD "black"
  "<div style=\"" ++ placeholderStyleString opts ++ "\">"
    ++ "<h2 style=\"font-size: 24px; margin-bottom: 20px; color: " ++ tc ++ ";\">"
    ++ opts.title.getD "Content Protected" ++ "</h2>"
    ++ "<p style=\"font-size: 16px; margin-bottom: 15px; color: " ++ tc ++ ";\">"
    ++ opts.message.getD "This content is protected for security reasons." ++ "</p>"
    ++ (match opts.secondaryMessage with
        | some sm => "<p style=\"font-size: 16px; color: " ++ tc ++ ";\">" ++ sm ++ "</p>"
        | none => "")
    ++ "<div style=\"margin-top: 20px; padding-top: 20px; border-top: 1px solid rgba(255, 255, 255, 0.2);\">"
    ++ "<p style=\"font-size: 14px; color: " ++ tc ++ "; opacity: 0.8;\">"
    ++ "This content is protected by ContentSecurityToolkit</p></div></div>"

/-- State of a `ProtectedContentManager` restricted to the fields `hideContent`
and `restoreContent` read and write: the target element's `innerHTML`
(`none` models a falsy target) and the captured `originalContent`. -/
structure PCMState where
  targetInnerHTML : Option String
  originalContent : Option String
deriving Repr, DecidableEq

/-- Embedding of `ProtectedContentManager.hideContent`: returns `false` when the
target is falsy; captures `innerHTML` into `originalContent` only when
`originalContent === null`; then swaps in the generated placeholder. -/
def hideContent (opts : PlaceholderOptions) (st : PCMState) : Bool × PCMState :=
  match st.targetInnerHTML with
  | none => (false, st)
  | some html =>
    let st1 := if st.originalContent = none
      then { st with originalContent := some html } else st
    (true, { st1 with targetInnerHTML := some (placeholderHTML opts) })

/-- Embedding of `ProtectedContentManager.restoreContent`: returns `false` when
the target is falsy or nothing was captured; otherwise writes the captured
string back into `innerHTML` and clears `originalContent`. -/
def restoreContent (st : PCMState) : Bool × PCMState :=
  match st.targetInnerHTML, st.originalContent with
  | some _, some orig => (true, { targetInnerHTML := some orig, originalContent := none })
  | _, _ => (false, st)

/-- A sequence of consecutive `hideContent` calls. -/
def hideMany (optsList : List PlaceholderOptions) (st : PCMState) : PCMState :=
  optsList.foldl (fun s o => (hideContent o s).2) st

/-! ## Detection strategies (src/unnamed/part_002, src/src/strategies/ExtensionStrategy.ts)

Only the state-transition logic of the two detection handlers is embedded; the
mediator publish is recorded as an append to a published-events log. -/

/-- State of a `DevToolsStrategy` relevant to `handleDevToolsStateChange`:
the stored `isDevToolsOpen` flag plus the log of `isOpen` payloads of the
`DEVTOOLS_STATE_CHANGE` events it published. -/
structure DevToolsStrategyState where
  isDevToolsOpen : Bool
  publishedDevToolsEvents : List Bool
deriving Repr, DecidableEq

/-- Embedding of `DevToolsStrategy.handleDevToolsStateChange`: acts (stores the
new flag, publishes one event, calls the custom handler) only when the observed
state differs from the stored flag. -/
def handleDevToolsStateChange (isOpen : Bool) (st : DevToolsStrategyState) :
    DevToolsStrategyState :=
  if isOpen ≠ st.isDevToolsOpen then
    { isDevToolsOpen := isOpen,
      publishedDevToolsEvents := st.publishedDevToolsEvents ++ [isOpen] }
  else st

/-- State of an `ExtensionStrategy` relevant to `handleDetection`: the
`detectedExtensions` set (as a list) plus the log of extension ids of the
`EXTENSION_DETECTED` events it published. -/
structure ExtensionStrategyState where
  detectedExtensions : List String
  publishedExtensionEvents : List String
deriving Repr, DecidableEq

/-- Embedding of `ExtensionStrategy.handleDetection`: an empty id is rejected
(error logged, nothing published); an id already in `detectedExtensions` is
skipped; otherwise the id is added and exactly one event is published. -/
def handleDetection (extensionId : String) (st : ExtensionStrategyState) :
    ExtensionStrategyState :=
  if extensionId = "" then st
  else if extensionId ∈ st.detectedExtensions then st
  else
    { detectedExtensions := st.detectedExtensions ++ [extensionId],
      publishedExtensionEvents := st.publishedExtensionEvents ++ [extensionId] }

/-! ## Per-feature event handlers
(src/unnamed/part_000, src/src/core/mediator/handlers)

Each handler is embedded as a pure function from the triggering event's data
to the list of protection events it publishes, recording the event type string
and the `priority` field of the published payload. -/

/-- A published `OVERLAY_SHOWN`/`CONTENT_HIDDEN`-class event, reduced to its
type string and the `priority` carried in its data. -/
structure PublishedProtection where
  etype : String
  priority : Int
deriving Repr, DecidableEq

/-- JS `x || d` on numbers: `0` is falsy (`NaN` is not modelled). -/
def jsOrInt (x d : Int) : Int := if x = 0 then d else x

/-- Data of a `DEVTOOLS_STATE_CHANGE` event as read by `DevToolsEventHandler`
(`showOverlay`/`hideContent` are optional booleans in `EventDataMap`). -/
structure DevToolsEventData where
  isOpen : Bool
  showOverlay : Option Bool := none
  hideContent : Option Bool := none
deriving Repr, DecidableEq

/-- Embedding of `DevToolsEventHandler.handleDevToolsOpened`: publishes
`OVERLAY_SHOWN` with priority 10 unless `showOverlay === false`, and
`CONTENT_HIDDEN` with priority 10 only when `hideContent === true`. -/
def handleDevToolsOpened (d : DevToolsEventData) : List PublishedProtection :=
  (if d.showOverlay ≠ some false then [⟨"overlay:shown", 10⟩] else [])
    ++ (if d.hideContent = some true then [⟨"content:hidden", 10⟩] else [])

/-- Data of an `EXTENSION_DETECTED` event as read by
`BrowserExtensionEventHandler.applyExtensionProtection` (truthiness of
`hideContent`/`showOverlay`). -/
structure ExtensionEventData where
  hideContent : Bool
  showOverlay : Bool
deriving Repr, DecidableEq

/-- Embedding of `BrowserExtensionEventHandler.applyExtensionProtection`:
publishes `CONTENT_HIDDEN` with priority 8 when `hideContent` is truthy and
`OVERLAY_SHOWN` with priority 8 when `showOverlay` is truthy. -/
def applyExtensionProtection (d : ExtensionEventData) : List PublishedProtection :=
  (if d.hideContent then [⟨"content:hidden", 8⟩] else [])
    ++ (if d.showOverlay then [⟨"overlay:shown", 8⟩] else [])

/-- Data of a `FRAME_EMBEDDING_DETECTED` event as read by
`FrameEmbeddingEventHandler.handleFrameEmbeddingDetected`. -/
structure FrameEventData where
  isEmbedded : Bool
  isExternalFrame : Bool
  showOverlay : Bool
  hideContent : Bool
deriving Repr, DecidableEq

/-- Embedding of `FrameEmbeddingEventHandler.handleFrameEmbeddingDetected`:
only external embedded frames are handled; both publishes carry priority 9. -/
def handleFrameEmbeddingDetected (d : FrameEventData) : List PublishedProtection :=
  if d.isEmbedded ∧ d.isExternalFrame then
    (if d.showOverlay then [⟨"overlay:shown", 9⟩] else [])
      ++ (if d.hideContent then [⟨"content:hidden", 9⟩] else [])
  else []

/-- Data of a `SCREENSHOT_ATTEMPT` event as read by
`ScreenshotEventHandler.handleScreenshotAttempt`; `priority` is a required
numeric field of the event payload (`EventDataMap`). -/
structure ScreenshotEventData where
  showOverlay : Bool
  hideContent : Bool
  priority : Int
  duration : Option Int := none
deriving Repr, DecidableEq

/-- Embedding of `ScreenshotEventHandler.handleScreenshotAttempt`: both
publishes carry `screenshotEvent.data.priority || 5`, i.e. the priority taken
from the triggering event's payload, with 5 only as the falsy default. -/
def handleScreenshotAttempt (d : ScreenshotEventData) : List PublishedProtection :=
  (if d.showOverlay then [⟨"overlay:shown", jsOrInt d.priority 5⟩] else [])
    ++ (if d.hideContent then [⟨"content:hidden", jsOrInt d.priority 5⟩] else [])

/-! ## Event bus: `ContentProtectionMediator`
(src/src/core/mediator/protection-event.ts)

Event types are their enum string values. Handlers are embedded as data: a
list of mediator actions the handler performs, plus a flag saying whether the
handler then throws (the dispatch loop of `publish` wraps each handler call in
`try`/`catch`). Subscribing from inside a handler is not modelled; the claims
under verification only exercise unsubscription, which the source implements
by replacing the stored array with a freshly filtered copy. -/

/-- A protection event (`ProtectionEvent`): `type` (enum string), `source`,
`timestamp` (0 models an absent/falsy timestamp that `publish` backfills) and
an abstract numeric payload stand-in consumed only by filters. -/
structure MEvent where
  etype : String
  source : String
  timestamp : Nat
  data : Nat
deriving Repr, DecidableEq

/-- An action a subscriber's handler performs on the mediator while it runs. -/
inductive MedAct where
  | unsub (subId : String)
  | unsubByContext (ctx : String)
deriving Repr, DecidableEq

/-- A handler, embedded as the mediator actions it performs followed by
whether it then throws (the thrown error is caught inside `publish`). -/
structure HandlerSpec where
  acts : List MedAct
  throws : Bool
deriving Repr, DecidableEq

/-- A stored subscription (`Subscription` in mediator/types.ts). `seq` is the
numeric counter embedded in `id` (`"sub_" ++ toString seq`), carried
separately so that insertion order can be stated without string parsing. -/
structure Subscription where
  id : String
  seq : Nat
  eventType : String
  handler : HandlerSpec
  filter : Option (MEvent → Bool)
  priority : Int
  context : Option String

/-- State of a `ContentProtectionMediator`: the subscription map (assoc list
keyed by event type, in insertion order), the id counter and the bounded
event history. -/
structure MedState where
  subscriptions : List (String × List Subscription)
  subscriptionCounter : Nat
  eventHistory : List MEvent

/-- Initial mediator state (fresh `ContentProtectionMediator`). -/
def initialMedState : MedState := ⟨[], 0, []⟩

/-- Lookup in an insertion-ordered assoc list (JS `Map.get`). -/
def alGet (m : List (String × α)) (k : String) : Option α :=
  match m with
  | [] => none
  | (k', v) :: rest => if k' = k then some v else alGet rest k

/-- Update in an insertion-ordered assoc list (JS `Map.set`): replaces in
place when the key exists, appends otherwise. -/
def alSet (m : List (String × α)) (k : String) (v : α) : List (String × α) :=
  match m with
  | [] => [(k, v)]
  | (k', v') :: rest => if k' = k then (k, v) :: rest else (k', v') :: alSet rest k v

/-- Stable insertion of one subscription into a priority-descending list:
the new element goes after every element whose priority is ≥ its own, which
is the position a stable sort with comparator
`(a, b) => (b.priority || 0) - (a.priority || 0)` assigns to it. -/
def insertSub (x : Subscription) : List Subscription → List Subscription
  | [] => [x]
  | y :: ys => if x.priority ≤ y.priority then y :: insertSub x ys else x :: y :: ys

/-- Stable sort by descending priority, modelling the ES2019-stable
`subscriptionsForType.sort((a, b) => (b.priority || 0) - (a.priority || 0))`. -/
def sortSubs (l : List Subscription) : List Subscription :=
  l.foldl (fun acc y => insertSub y acc) []

/-- Embedding of `ContentProtectionMediator.subscribe` (the
invalid-handler early return is not modelled: handlers are data here, always
callable): generates `sub_<n>`, pushes the record, and stable-sorts the
per-type list by descending priority. -/
def subscribe (st : MedState) (eventType : String) (handler : HandlerSpec)
    (priority : Int) (context : Option String) (filter : Option (MEvent → Bool)) :
    String × MedState :=
  let n := st.subscriptionCounter + 1
  let subId := "sub_" ++ toString n
  let sub : Subscription := ⟨subId, n, eventType, handler, filter, priority, context⟩
  let cur := (alGet st.subscriptions eventType).getD []
  let sorted := sortSubs (cur ++ [sub])
  (subId, { st with subscriptions := alSet st.subscriptions eventType sorted,
                    subscriptionCounter := n })

/-- Remove the subscription with the given id from the first event type whose
list contains it, returning the new map and whether it was found (the `break`
after the first hit in `unsubscribe`). The filtered list is a fresh array in
the source — the key aliasing fact behind the mid-publish semantics. -/
def removeFirstMatch (subId : String) :
    List (String × List Subscription) → List (String × List Subscription) × Bool
  | [] => ([], false)
  | (k, subs) :: rest =>
    if subs.any (fun s => s.id = subId) then
      ((k, subs.filter (fun s => s.id ≠ subId)) :: rest, true)
    else
      let (rest2, found) := removeFirstMatch subId rest
      ((k, subs) :: rest2, found)

/-- Embedding of `ContentProtectionMediator.unsubscribe`. -/
def unsubscribe (st : MedState) (subId : String) : Bool × MedState :=
  if subId = "" then (false, st)
  else
    let (m, found) := removeFirstMatch subId st.subscriptions
    (found, { st with subscriptions := m })

/-- Embedding of `ContentProtectionMediator.unsubscribeByContext`: filters
every event type's list, counting removals. -/
def unsubscribeByContext (st : MedState) (ctx : String) : Nat × MedState :=
  if ctx = "" then (0, st)
  else
    let newMap := st.subscriptions.map
      (fun e => (e.1, e.2.filter (fun s => s.context ≠ some ctx)))
    let removed := st.subscriptions.foldl
      (fun n e => n + (e.2.filter (fun s => s.context = some ctx)).length) 0
    (removed, { st with subscriptions := newMap })

/-- Run the mediator actions of one handler in order. -/
def runActs (acts : List MedAct) (st : MedState) : MedState :=
  acts.foldl
    (fun s a =>
      match a with
      | .unsub i => (unsubscribe s i).2
      | .unsubByContext c => (unsubscribeByContext s c).2)
    st

/-- Whether a subscription's filter accepts the event (absent filter accepts). -/
def filterAccepts (f : Option (MEvent → Bool)) (e : MEvent) : Bool :=
  match f with
  | none => true
  | some f => f e

/-- The dispatch loop of `publish`: iterates over the subscriber array
captured when `publish` looked the event type up — handler-made map changes
do not alter the iteration, exactly as the source's `for...of` iterates the
array object while `unsubscribe` stores a fresh filtered copy in the map. For
each subscription whose filter accepts, the handler's actions run against the
evolving state, its id is recorded as invoked, and if the handler throws the
error is caught and logged (recorded here), never interrupting the loop. -/
def dispatch (e : MEvent) : List Subscription → MedState →
    MedState × List String × List String
  | [], st => (st, [], [])
  | sub :: rest, st =>
    if filterAccepts sub.filter e then
      let st1 := runActs sub.handler.acts st
      let r := dispatch e rest st1
      if sub.handler.throws then
        (r.1, sub.id :: r.2.1, ("handler-error:" ++ sub.id) :: r.2.2)
      else
        (r.1, sub.id :: r.2.1, r.2.2)
    else
      dispatch e rest st

/-- Embedding of the bounded history append (`addToEventHistory`): `unshift`
then drop the oldest beyond `MAX_HISTORY_SIZE = 100`. -/
def addToEventHistory (e : MEvent) (st : MedState) : MedState :=
  { st with eventHistory := (e :: st.eventHistory).take 100 }

/-- Timestamp backfill of `publish`: a falsy (0) `event.timestamp` is
replaced by `Date.now()`. -/
def normalizeTimestamp (now : Nat) (e : MEvent) : MEvent :=
  if e.timestamp = 0 then { e with timestamp := now } else e

/-- The subscriber list stored for an event type
(`this.subscriptions.get(event.type) || []`). -/
def subsFor (st : MedState) (eventType : String) : List Subscription :=
  (alGet st.subscriptions eventType).getD []

/-- Embedding of `ContentProtectionMediator.publish`. Returns the new state,
the invoked subscription ids in invocation order, and the logged errors.
A falsy `event.type` (empty string) is rejected; a falsy timestamp (0) is
backfilled with the current tick. -/
def publish (now : Nat) (e : MEvent) (st : MedState) :
    MedState × List String × List String :=
  if e.etype = "" then (st, [], ["invalid-event"])
  else if (subsFor (addToEventHistory (normalizeTimestamp now e) st)
      (normalizeTimestamp now e).etype).isEmpty then
    (addToEventHistory (normalizeTimestamp now e) st, [], [])
  else
    dispatch (normalizeTimestamp now e)
      (subsFor (addToEventHistory (normalizeTimestamp now e) st)
        (normalizeTimestamp now e).etype)
      (addToEventHistory (normalizeTimestamp now e) st)

/-- A subscribe request, used to describe sequences of `subscribe` calls. -/
structure SubReq where
  eventType : String
  handler : HandlerSpec
  priority : Int
  context : Option String
  filter : Option (MEvent → Bool)

/-- Apply a sequence of `subscribe` calls. -/
def subscribeMany (reqs : List SubReq) (st : MedState) : MedState :=
  reqs.foldl (fun s r => (subscribe s r.eventType r.handler r.priority r.context r.filter).2) st

/-- Replace every stored handler by a non-throwing one with the same actions;
used to state that throwing is irrelevant to which handlers get invoked. -/
def stripThrows (st : MedState) : MedState :=
  let f := fun (s : Subscription) => { s with handler := { s.handler with throws := false } }
  { st with subscriptions := st.subscriptions.map (fun e => (e.1, e.2.map f)) }

/-- Boolean check that a subscription list is in dispatch order: strictly
descending priority, with ties ordered by subscription sequence number
(insertion order). -/
def subsOrderedB : List Subscription → Bool
  | [] => true
  | [_] => true
  | a :: b :: rest =>
    (decide (b.priority < a.priority)
        || (decide (a.priority = b.priority) && decide (a.seq < b.seq)))
      && subsOrderedB (b :: rest)

/-! ## Overlay coordinator: `SecurityOverlayManager` (src/unnamed/part_004)

Overlay ids are the template string
`overlay-<owner>-<overlayType>-<Date.now()>`; they are kept structured here
(owner, type, tick) so that distinctness of ticks — `Date.now()` modelled as
a strictly increasing per-call counter — makes ids distinct without string
reasoning. DOM element/blocker references and timer handles are dropped;
`createOverlayElements` always succeeds in a browser, so `showOverlayById`
fails only when the id is not stored. The `DomObserver` auto-restore path is
driven by external DOM mutations and is outside the modelled operations. -/

/-- Structured form of the generated overlay id
`overlay-<owner>-<overlayType>-<tick>`. -/
structure OverlayId where
  owner : String
  otype : String
  tick : Nat
deriving Repr, DecidableEq

/-- Overlay options restricted to the fields the manager's control flow
reads: `duration` (auto-expiry timer), `autoRestore` and `blockEvents`;
display-only fields are omitted. -/
structure OverlayOptions where
  duration : Option Int := none
  autoRestore : Option Bool := none
  blockEvents : Option Bool := none
deriving Repr, DecidableEq

/-- A stored overlay (`StoredOverlay`), with DOM references and the timer
handle dropped; `isVisible` tracks element presence exactly as the source
keeps them in sync (elements exist iff `isVisible`). -/
structure StoredOverlay where
  id : OverlayId
  overlayType : String
  options : OverlayOptions
  owner : String
  priority : Int
  isVisible : Bool
  createdAt : Nat
deriving Repr, DecidableEq

/-- Lookup in the overlays map (JS `Map.get`), keyed by `OverlayId`. -/
def ovFind (m : List (OverlayId × StoredOverlay)) (k : OverlayId) : Option StoredOverlay :=
  match m with
  | [] => none
  | (k', v) :: rest => if k' = k then some v else ovFind rest k

/-- Update in the overlays map (JS `Map.set`): replace in place or append. -/
def ovSet (m : List (OverlayId × StoredOverlay)) (k : OverlayId) (v : StoredOverlay) :
    List (OverlayId × StoredOverlay) :=
  match m with
  | [] => [(k, v)]
  | (k', v') :: rest => if k' = k then (k, v) :: rest else (k', v') :: ovSet rest k v

/-- Deletion from the overlays map (JS `Map.delete`). -/
def ovDel (m : List (OverlayId × StoredOverlay)) (k : OverlayId) :
    List (OverlayId × StoredOverlay) :=
  match m with
  | [] => []
  | (k', v') :: rest => if k' = k then rest else (k', v') :: ovDel rest k

/-- State of a `SecurityOverlayManager`: the overlays map (insertion order),
the active overlay id, the waiting queue of ids, and the `Date.now()` tick. -/
structure OvState where
  overlays : List (OverlayId × StoredOverlay)
  activeOverlayId : Option OverlayId
  overlayQueue : List OverlayId
  clock : Nat
deriving Repr, DecidableEq

/-- Initial overlay manager state (fresh `SecurityOverlayManager`). -/
def initialOvState : OvState := ⟨[], none, [], 0⟩

/-- Priority comparison used by the queue sort's comparator
`(a, b) => overlayB.priority - overlayA.priority`, with the `if (!overlayA
|| !overlayB) return 0` guard: an id missing from the map compares equal to
everything. `queueKeepsFirst st y x` says a stable sort keeps `y` before a
later `x` (comparator result ≤ 0 viewed from `(x, y)`). -/
def queueKeepsFirst (m : List (OverlayId × StoredOverlay)) (y x : OverlayId) : Bool :=
  match ovFind m y, ovFind m x with
  | some oy, some ox => decide (ox.priority ≤ oy.priority)
  | _, _ => true

/-- Stable insertion for the queue sort: `x` is placed after every earlier
element the comparator does not strictly order after it. -/
def insertQueue (m : List (OverlayId × StoredOverlay)) (x : OverlayId) :
    List OverlayId → List OverlayId
  | [] => [x]
  | y :: ys => if queueKeepsFirst m y x then y :: insertQueue m x ys else x :: y :: ys

/-- Stable sort of the waiting queue by descending stored priority, modelling
`this.overlayQueue.sort(...)` (stable insertion sort; for queues containing
only stored ids this is the unique stable result of the comparator). -/
def sortQueue (m : List (OverlayId × StoredOverlay)) (q : List OverlayId) : List OverlayId :=
  q.foldl (fun acc y => insertQueue m y acc) []

/-- Embedding of `SecurityOverlayManager.addToQueue`: append if absent, then
stable-sort by descending priority. -/
def addToQueue (overlayId : OverlayId) (st : OvState) : OvState :=
  if overlayId ∈ st.overlayQueue then st
  else { st with overlayQueue := sortQueue st.overlays (st.overlayQueue ++ [overlayId]) }

/-- Embedding of `SecurityOverlayManager.showOverlayById`: fails only when
the id is not stored (element creation succeeds in a browser); marks the
overlay visible, makes it the active overlay, and removes it from the queue.
Auto-expiry timer and auto-restore observer setup have no immediate
state effect and are dropped. -/
def showOverlayById (overlayId : OverlayId) (st : OvState) : Bool × OvState :=
  match ovFind st.overlays overlayId with
  | none => (false, st)
  | some o =>
    let o' := { o with isVisible := true }
    (true,
      { st with
        overlays := ovSet st.overlays overlayId o'
        activeOverlayId := some overlayId
        overlayQueue := st.overlayQueue.filter (fun i => i ≠ overlayId) })

/-- Embedding of `SecurityOverlayManager.hideOverlayById`: no-op on a missing
or already hidden overlay; otherwise clears the timer (dropped), detaches the
elements (dropped), marks it hidden, and — when it was the active overlay —
clears `activeOverlayId`, removes the page-wide listeners (dropped) and, when
`processQueue` and the queue is non-empty, shifts the queue head and shows it. -/
def hideOverlayById (overlayId : OverlayId) (processQueue : Bool) (st : OvState) :
    Bool × OvState :=
  match ovFind st.overlays overlayId with
  | none => (false, st)
  | some o =>
    if o.isVisible = false then (false, st)
    else
      let o' := { o with isVisible := false }
      let st1 := { st with overlays := ovSet st.overlays overlayId o' }
      if st1.activeOverlayId = some overlayId then
        let st2 := { st1 with activeOverlayId := none }
        if processQueue ∧ st2.overlayQueue ≠ [] then
          match st2.overlayQueue with
          | [] => (true, st2)
          | nextOverlayId :: restQueue =>
            (true, (showOverlayById nextOverlayId { st2 with overlayQueue := restQueue }).2)
        else (true, st2)
      else (true, st1)

/-- The show-or-queue tail of `registerOverlay`, after the overlay has been
stored: show immediately when no active overlay exists; otherwise add to the
queue and, when the new overlay's priority strictly exceeds the active one's,
hide the active overlay without processing the queue and show the new one. -/
def registerDispatch (overlayId : OverlayId) (st1 : OvState) : OvState :=
  match st1.activeOverlayId with
  | none => (showOverlayById overlayId st1).2
  | some activeId =>
    let st2 := addToQueue overlayId st1
    match ovFind st2.overlays activeId, ovFind st2.overlays overlayId with
    | some activeOverlay, some newOverlay =>
      if activeOverlay.priority < newOverlay.priority then
        let st3 := (hideOverlayById activeId false st2).2
        (showOverlayById overlayId st3).2
      else st2
    | _, _ => st2

/-- Embedding of `SecurityOverlayManager.registerOverlay` (browser context;
the non-browser path returns `""` without touching state): stores a fresh
hidden overlay under id `overlay-<owner>-<type>-<now>`, then runs the
show-or-queue logic (`registerDispatch`). -/
def registerOverlay (owner overlayType : String) (options : OverlayOptions)
    (priority : Int) (st : OvState) : OverlayId × OvState :=
  let overlayId : OverlayId := ⟨owner, overlayType, st.clock⟩
  let stored : StoredOverlay :=
    { id := overlayId, overlayType := overlayType, options := options, owner := owner,
      priority := priority, isVisible := false, createdAt := st.clock }
  let st1 := { st with overlays := ovSet st.overlays overlayId stored, clock := st.clock + 1 }
  (overlayId, registerDispatch overlayId st1)

/-- Embedding of `SecurityOverlayManager.removeOverlayById`: no-op on a
missing id; otherwise stops the DOM observer (dropped), hides the overlay
with queue processing, and deletes it from storage. Note the queue is *not*
purged of the removed id. -/
def removeOverlayById (overlayId : OverlayId) (st : OvState) : Bool × OvState :=
  match ovFind st.overlays overlayId with
  | none => (false, st)
  | some _ =>
    let st1 := (hideOverlayById overlayId true st).2
    (true, { st1 with overlays := ovDel st1.overlays overlayId })

/-- Embedding of `SecurityOverlayManager.removeOverlaysByOwner`: snapshots
the ids owned by `owner`, then removes each. -/
def removeOverlaysByOwner (owner : String) (st : OvState) : Nat × OvState :=
  let toRemove := (st.overlays.filter (fun e => e.2.owner = owner)).map (·.1)
  toRemove.foldl
    (fun acc i =>
      (acc.1 + (if (removeOverlayById i acc.2).1 then 1 else 0),
        (removeOverlayById i acc.2).2))
    (0, st)

/-- Embedding of `SecurityOverlayManager.checkAndRestoreOverlaysByOwner`:
walks the stored overlays (key order snapshot; entries re-read at visit
time); each hidden overlay of the owner whose `autoRestore` is not `false` is
queued when an active overlay exists, otherwise shown immediately. -/
def checkAndRestoreOverlaysByOwner (owner : String) (st : OvState) : OvState :=
  (st.overlays.map (·.1)).foldl
    (fun s i =>
      match ovFind s.overlays i with
      | none => s
      | some o =>
        if o.owner = owner ∧ o.options.autoRestore ≠ some false ∧ o.isVisible = false then
          match s.activeOverlayId with
          | some _ => addToQueue i s
          | none => (showOverlayById i s).2
        else s)
    st

/-- Embedding of `SecurityOverlayManager.handleOverlayShown` for a
well-formed `OVERLAY_SHOWN` event (type guard passed, data and options
present): when an overlay with the same `(owner, type)` exists, the first
matching one is removed (the loop breaks after one removal); then the overlay
is registered with `data.priority || 0` left to the caller. -/
def handleOverlayShown (strategyName overlayType : String) (options : OverlayOptions)
    (priority : Int) (st : OvState) : OvState :=
  let hasDup := st.overlays.any
    (fun e => e.2.owner = strategyName ∧ e.2.overlayType = overlayType)
  let st1 :=
    if hasDup then
      match st.overlays.find? (fun e => e.2.owner = strategyName ∧ e.2.overlayType = overlayType) with
      | some (dupId, _) => (removeOverlayById dupId st).2
      | none => st
    else st
  (registerOverlay strategyName overlayType options priority st1).2

/-- Embedding of `SecurityOverlayManager.clearAllOverlays`: removes every
stored overlay (key snapshot), then clears the queue and the active id. -/
def clearAllOverlays (st : OvState) : OvState :=
  let st1 := (st.overlays.map (·.1)).foldl (fun s i => (removeOverlayById i s).2) st
  { st1 with overlayQueue := [], activeOverlayId := none }

/-- A public operation on the overlay manager, covering `registerOverlay` and
the three overlay-event handlers (`handleOverlayShown` = duplicate removal +
registration, `handleOverlayRemoved` = `removeOverlaysByOwner`,
`handleOverlayRestored` = `checkAndRestoreOverlaysByOwner`) as well as the
direct removal entry points. -/
inductive OvOp where
  | register (owner overlayType : String) (options : OverlayOptions) (priority : Int)
  | shown (strategyName overlayType : String) (options : OverlayOptions) (priority : Int)
  | removeById (overlayId : OverlayId)
  | removeByOwner (owner : String)
  | checkRestore (owner : String)
  | clearAll
deriving Repr, DecidableEq

/-- One step of the overlay manager under a public operation. -/
def ovStep (st : OvState) : OvOp → OvState
  | .register owner t opts p => (registerOverlay owner t opts p st).2
  | .shown s t opts p => handleOverlayShown s t opts p st
  | .removeById i => (removeOverlayById i st).2
  | .removeByOwner o => (removeOverlaysByOwner o st).2
  | .checkRestore o => checkAndRestoreOverlaysByOwner o st
  | .clearAll => clearAllOverlays st

/-- Run a sequence of public operations from the initial state. -/
def ovRun (ops : List OvOp) : OvState :=
  ops.foldl ovStep initialOvState

/-- Number of stored overlays with the given owner and overlay type. -/
def countOwnerType (st : OvState) (owner overlayType : String) : Nat :=
  (st.overlays.filter (fun e => e.2.owner = owner ∧ e.2.overlayType = overlayType)).length

/-- The structural invariant of the overlay manager: keys are unique and
fresh below the clock, any visible stored overlay is the active one, the
active id refers to a stored visible overlay, and the active id is never
queued. -/
structure OvInv (st : OvState) : Prop where
  keysNodup : (st.overlays.map (·.1)).Nodup
  ticksLt : ∀ e ∈ st.overlays, e.1.tick < st.clock
  visibleIsActive : ∀ k o, ovFind st.overlays k = some o → o.isVisible = true →
    st.activeOverlayId = some k
  activeVisible : ∀ a, st.activeOverlayId = some a →
    ∃ o, ovFind st.overlays a = some o ∧ o.isVisible = true
  activeNotQueued : ∀ a, st.activeOverlayId = some a → a ∉ st.overlayQueue

/-- Whether a public operation is a direct `registerOverlay` call (as opposed
to registration routed through the `OVERLAY_SHOWN` handler). -/
def isDirectRegister : OvOp → Bool
  | .register _ _ _ _ => true
  | _ => false

/-! ### Concrete scenarios used to evaluate the models on explicit inputs -/

/-- Two registrations where the second strictly outprioritises the first. -/
def preemptOps : List OvOp :=
  [.register "a" "t1" {} 1, .register "b" "t2" {} 2]

/-- Register an active overlay and a queued one, then remove the queued one
by id. -/
def danglingQueueOps : List OvOp :=
  [.register "a" "t" {} 5, .register "b" "u" {} 1, .removeById ⟨"b", "u", 1⟩]

/-- Two direct `registerOverlay` calls with the same owner and type. -/
def duplicateRegisterOps : List OvOp :=
  [.register "o" "t" {} 0, .register "o" "t" {} 0]

/-- Mediator with two subscriptions on `"t"`: `sub_1` (priority 10) whose
handler unsubscribes `sub_2`, and `sub_2` (priority 5) with a no-op handler. -/
def midPublishState : MedState :=
  (subscribe (subscribe initialMedState "t" ⟨[.unsub "sub_2"], false⟩ 10 none none).2
    "t" ⟨[], false⟩ 5 none none).2

/-- The event published against `midPublishState`. -/
def midPublishEvent : MEvent := ⟨"t", "src", 1, 0⟩

/-- Mediator with a throwing priority-10 subscriber and a well-behaved
priority-5 subscriber on the same event type. -/
def faultIsolationState : MedState :=
  (subscribe (subscribe initialMedState "t" ⟨[], true⟩ 10 none none).2
    "t" ⟨[], false⟩ 5 none none).2

/-- Dispatch order on subscriptions: strictly higher priority first, ties
broken by subscription sequence number (insertion order). -/
def subLt (a b : Subscription) : Prop :=
  b.priority < a.priority ∨ (a.priority = b.priority ∧ a.seq < b.seq)

instance : IsTrans Subscription subLt := by
  constructor
  intro a b c hab hbc
  unfold subLt at *
  omega

/-- Invariant of the mediator: every stored per-type list is in dispatch
order and every stored sequence number is within the counter. -/
def MedInv (st : MedState) : Prop :=
  ∀ p ∈ st.subscriptions, subsOrderedB p.2 = true ∧
    ∀ s ∈ p.2, s.seq ≤ st.subscriptionCounter

/-! ## Lemmas and theorems -/

theorem hideContent_keeps_capture (opts : PlaceholderOptions) (st : PCMState) (h x : String)
    (ho : st.originalContent = some h) (ht : st.targetInnerHTML = some x) :
    (hideContent opts st).2 =
      { targetInnerHTML := some (placeholderHTML opts), originalContent := some h } := by
  cases st with
  | mk t o => cases ht; cases ho; simp [hideContent]

theorem hideMany_keeps_capture (l : List PlaceholderOptions) :
    ∀ (st : PCMState) (h x : String), st.originalContent = some h →
      st.targetInnerHTML = some x →
      ∃ y, (hideMany l st).originalContent = some h ∧
        (hideMany l st).targetInnerHTML = some y := by
  induction l with
  | nil =>
    intro st h x ho ht
    exact ⟨x, ho, ht⟩
  | cons o rest ih =>
    intro st h x ho ht
    have hstep := hideContent_keeps_capture o st h x ho ht
    have hcons : hideMany (o :: rest) st = hideMany rest (hideContent o st).2 := rfl
    rw [hcons, hstep]
    exact ih _ h (placeholderHTML o) rfl rfl

/-- C3 (content round-trip): starting from a target element with `innerHTML`
`h` and no captured original, any first `hideContent` call captures exactly
`h`, any further consecutive `hideContent` calls (arbitrary placeholder
options) leave the captured original untouched, and `restoreContent` then
succeeds and restores the element's `innerHTML` to exactly `h` while clearing
the capture. -/
theorem content_round_trip (h : String) (firstOpts : PlaceholderOptions)
    (restOpts : List PlaceholderOptions) :
    (hideContent firstOpts ⟨some h, none⟩).2.originalContent = some h ∧
    (hideMany restOpts (hideContent firstOpts ⟨some h, none⟩).2).originalContent = some h ∧
    restoreContent (hideMany restOpts (hideContent firstOpts ⟨some h, none⟩).2)
      = (true, ⟨some h, none⟩) := by
  have h1 : (hideContent firstOpts ⟨some h, none⟩).2
      = ⟨some (placeholderHTML firstOpts), some h⟩ := by
    simp [hideContent]
  obtain ⟨y, hy1, hy2⟩ := hideMany_keeps_capture restOpts
    (hideContent firstOpts ⟨some h, none⟩).2 h (placeholderHTML firstOpts)
    (by rw [h1]) (by rw [h1])
  refine ⟨by rw [h1], hy1, ?_⟩
  cases hm : hideMany restOpts (hideContent firstOpts ⟨some h, none⟩).2 with
  | mk t o =>
    rw [hm] at hy1 hy2
    simp only at hy1 hy2
    rw [hy1, hy2]
    rfl

/-- C7 (idempotent detection): `DevToolsStrategy.handleDevToolsStateChange`
applied twice with the same observation equals applying it once (the second
observation publishes nothing), and a genuine transition publishes exactly
one event; likewise `ExtensionStrategy.handleDetection` is idempotent per
extension id and a fresh non-empty id publishes exactly one event. -/
theorem idempotent_detection (b : Bool) (st : DevToolsStrategyState)
    (extId : String) (est : ExtensionStrategyState) :
    handleDevToolsStateChange b (handleDevToolsStateChange b st)
        = handleDevToolsStateChange b st ∧
    (st.isDevToolsOpen ≠ b →
      (handleDevToolsStateChange b st).publishedDevToolsEvents
        = st.publishedDevToolsEvents ++ [b]) ∧
    handleDetection extId (handleDetection extId est) = handleDetection extId est ∧
    (extId ≠ "" → extId ∉ est.detectedExtensions →
      (handleDetection extId est).publishedExtensionEvents
        = est.publishedExtensionEvents ++ [extId]) := by
  refine ⟨?_, ?_, ?_, ?_⟩
  · by_cases hb : b = st.isDevToolsOpen
    · simp [handleDevToolsStateChange, hb]
    · simp [handleDevToolsStateChange, hb]
  · intro hne
    have hb : ¬(b = st.isDevToolsOpen) := fun hh => hne hh.symm
    simp [handleDevToolsStateChange, hb]
  · by_cases he : extId = ""
    · simp [handleDetection, he]
    · by_cases hm : extId ∈ est.detectedExtensions
      · simp [handleDetection, he, hm]
      · simp [handleDetection, he, hm]
  · intro he hm
    simp [handleDetection, he, hm]

/-- Witness for `idempotent_detection`: a closed transition from
devtools-closed to devtools-open and a first-time extension detection each
publish exactly one event. -/
theorem idempotent_detection_witness :
    (handleDevToolsStateChange true ⟨false, []⟩).publishedDevToolsEvents = [true] ∧
    (handleDetection "ext" ⟨[], []⟩).publishedExtensionEvents = ["ext"] := by
  constructor
  · simpa using (idempotent_detection true ⟨false, []⟩ "ext" ⟨[], []⟩).2.1 (by decide)
  · simpa using (idempotent_detection true ⟨false, []⟩ "ext" ⟨[], []⟩).2.2.2
      (by decide) (by simp)

/-- C9 counterexample: `ScreenshotEventHandler.handleScreenshotAttempt`
forwards the triggering event's own `data.priority` — for a
`SCREENSHOT_ATTEMPT` event with payload priority 7 the published
`OVERLAY_SHOWN` carries priority 7, not the fixed constant 5 the claim
requires regardless of the triggering event's content. -/
theorem screenshot_priority_counterexample :
    (handleScreenshotAttempt ⟨true, false, 7, none⟩).map (·.priority) = [7] ∧
    ((7 : Int) = 5 → False) := by
  exact ⟨rfl, by decide⟩

/-- C9 amended: the DevTools, Extension and Frame-embedding handlers publish
fixed per-feature priorities (10, 8, 9) regardless of the event payload, but
the Screenshot handler publishes `data.priority || 5` — the triggering
event's priority, with 5 only as the default for a falsy (0) payload value. -/
theorem handler_priorities (d1 : DevToolsEventData) (d2 : ExtensionEventData)
    (d3 : FrameEventData) (d4 : ScreenshotEventData) :
    ((handleDevToolsOpened d1).all (fun p => p.priority == 10)) = true ∧
    ((applyExtensionProtection d2).all (fun p => p.priority == 8)) = true ∧
    ((handleFrameEmbeddingDetected d3).all (fun p => p.priority == 9)) = true ∧
    ((handleScreenshotAttempt d4).all (fun p => p.priority == jsOrInt d4.priority 5)) = true := by
  refine ⟨?_, ?_, ?_, ?_⟩
  · unfold handleDevToolsOpened
    split <;> split <;> simp
  · unfold applyExtensionProtection
    split <;> split <;> simp
  · unfold handleFrameEmbeddingDetected
    split
    · split <;> split <;> simp
    · simp
  · unfold handleScreenshotAttempt
    split <;> split <;> simp

/-! ### Mediator lemmas -/

theorem alGet_map (f : α → β) (m : List (String × α)) (k : String) :
    alGet (m.map (fun e => (e.1, f e.2))) k = (alGet m k).map f := by
  induction m with
  | nil => rfl
  | cons e rest ih =>
    by_cases h : e.1 = k <;> simp [alGet, h, ih]

theorem alGet_mem {k : String} {v : α} :
    ∀ {m : List (String × α)}, alGet m k = some v → (k, v) ∈ m := by
  intro m
  induction m with
  | nil => intro h; simp [alGet] at h
  | cons e rest ih =>
    intro h
    obtain ⟨a, b⟩ := e
    by_cases he : a = k
    · simp only [alGet, if_pos he] at h
      cases h
      subst he
      exact List.mem_cons_self _ _
    · simp only [alGet, if_neg he] at h
      exact List.mem_cons_of_mem _ (ih h)

theorem mem_alSet {k : String} {v : α} {p : String × α} :
    ∀ {m : List (String × α)}, p ∈ alSet m k v → p = (k, v) ∨ p ∈ m := by
  intro m
  induction m with
  | nil => intro h; simpa [alSet] using h
  | cons e rest ih =>
    intro h
    obtain ⟨a, b⟩ := e
    by_cases he : a = k
    · simp only [alSet, if_pos he] at h
      rcases List.mem_cons.mp h with h | h
      · exact Or.inl h
      · exact Or.inr (List.mem_cons_of_mem _ h)
    · simp only [alSet, if_neg he] at h
      rcases List.mem_cons.mp h with h | h
      · exact Or.inr (by rw [h]; exact List.mem_cons_self _ _)
      · rcases ih h with h' | h'
        · exact Or.inl h'
        · exact Or.inr (List.mem_cons_of_mem _ h')

theorem mem_insertSub {x s : Subscription} :
    ∀ {l : List Subscription}, s ∈ insertSub x l → s = x ∨ s ∈ l := by
  intro l
  induction l with
  | nil => intro h; simpa [insertSub] using h
  | cons y ys ih =>
    intro h
    rw [insertSub] at h
    by_cases hc : x.priority ≤ y.priority
    · rw [if_pos hc] at h
      rcases List.mem_cons.mp h with h | h
      · exact Or.inr (by rw [h]; exact List.mem_cons_self _ _)
      · rcases ih h with h' | h'
        · exact Or.inl h'
        · exact Or.inr (List.mem_cons_of_mem _ h')
    · rw [if_neg hc] at h
      rcases List.mem_cons.mp h with h | h
      · exact Or.inl h
      · exact Or.inr h

theorem subsOrderedB_iff_chain :
    ∀ {l : List Subscription}, subsOrderedB l = true ↔ List.Chain' subLt l := by
  intro l
  induction l with
  | nil => simp [subsOrderedB]
  | cons a tl ih =>
    cases tl with
    | nil => simp [subsOrderedB]
    | cons b rest =>
      rw [subsOrderedB, List.chain'_cons]
      rw [Bool.and_eq_true, Bool.or_eq_true, Bool.and_eq_true]
      rw [ih]
      unfold subLt
      simp

theorem insertSub_append_of_le {x : Subscription} :
    ∀ {acc : List Subscription}, (∀ a ∈ acc, x.priority ≤ a.priority) →
      insertSub x acc = acc ++ [x] := by
  intro acc
  induction acc with
  | nil => intro _; rfl
  | cons a tl ih =>
    intro h
    rw [insertSub, if_pos (h a (List.mem_cons_self _ _))]
    rw [ih fun b hb => h b (List.mem_cons_of_mem _ hb)]
    rfl

theorem foldl_insertSub_sorted :
    ∀ (l acc : List Subscription), List.Pairwise subLt (acc ++ l) →
      List.foldl (fun a y => insertSub y a) acc l = acc ++ l := by
  intro l
  induction l with
  | nil => intro acc _; simp
  | cons y l2 ih =>
    intro acc hp
    have hle : ∀ a ∈ acc, y.priority ≤ a.priority := by
      intro a ha
      have := (List.pairwise_append.mp hp).2.2 a ha y (List.mem_cons_self _ _)
      rcases this with h | ⟨h1, _⟩
      · exact le_of_lt h
      · exact le_of_eq h1.symm
    rw [List.foldl_cons, insertSub_append_of_le hle]
    have hp' : List.Pairwise subLt ((acc ++ [y]) ++ l2) := by
      simpa using hp
    simpa using ih (acc ++ [y]) hp'

theorem sortSubs_fix {l : List Subscription} (h : subsOrderedB l = true) :
    sortSubs l = l := by
  have hp : List.Pairwise subLt l :=
    List.chain'_iff_pairwise.mp (subsOrderedB_iff_chain.mp h)
  have := foldl_insertSub_sorted l [] (by simpa using hp)
  simpa [sortSubs] using this

theorem sortSubs_append_single (l : List Subscription) (x : Subscription) :
    sortSubs (l ++ [x]) = insertSub x (sortSubs l) := by
  simp [sortSubs, List.foldl_append]

theorem insertSub_chain {x : Subscription} :
    ∀ {l : List Subscription}, List.Chain' subLt l → (∀ s ∈ l, s.seq < x.seq) →
      List.Chain' subLt (insertSub x l) := by
  intro l
  induction l with
  | nil => intro _ _; simp [insertSub]
  | cons y ys ih =>
    intro hl hseq
    rw [insertSub]
    by_cases hc : x.priority ≤ y.priority
    · rw [if_pos hc]
      have hys : List.Chain' subLt ys := hl.tail
      have hrec := ih hys (fun s hs => hseq s (List.mem_cons_of_mem _ hs))
      rw [List.chain'_cons']
      refine ⟨?_, hrec⟩
      intro z hz
      cases ys with
      | nil =>
        rw [show insertSub x ([] : List Subscription) = [x] from rfl] at hz
        simp only [List.head?_cons, Option.mem_def, Option.some.injEq] at hz
        subst hz
        rcases lt_or_eq_of_le hc with h | h
        · exact Or.inl h
        · exact Or.inr ⟨h.symm, hseq y (List.mem_cons_self _ _)⟩
      | cons w ws =>
        rw [insertSub] at hz
        by_cases hcw : x.priority ≤ w.priority
        · rw [if_pos hcw] at hz
          simp only [List.head?_cons, Option.mem_def, Option.some.injEq] at hz
          subst hz
          exact (List.chain'_cons.mp hl).1
        · rw [if_neg hcw] at hz
          simp only [List.head?_cons, Option.mem_def, Option.some.injEq] at hz
          subst hz
          rcases lt_or_eq_of_le hc with h | h
          · exact Or.inl h
          · exact Or.inr ⟨h.symm, hseq y (List.mem_cons_self _ _)⟩
    · rw [if_neg hc]
      rw [List.chain'_cons]
      exact ⟨Or.inl (lt_of_not_le hc), hl⟩

theorem medInv_initial : MedInv initialMedState := by
  intro p hp
  simp [initialMedState] at hp

theorem subscribe_preserves_medInv {st : MedState}
    (hI : MedInv st) (ty : String) (h : HandlerSpec) (prio : Int)
    (c : Option String) (f : Option (MEvent → Bool)) :
    MedInv (subscribe st ty h prio c f).2 := by
  intro p hp
  have hcounter : (subscribe st ty h prio c f).2.subscriptionCounter
      = st.subscriptionCounter + 1 := rfl
  rw [hcounter]
  have hsubs : (subscribe st ty h prio c f).2.subscriptions
      = alSet st.subscriptions ty
          (sortSubs ((alGet st.subscriptions ty).getD []
            ++ [⟨"sub_" ++ toString (st.subscriptionCounter + 1),
                st.subscriptionCounter + 1, ty, h, f, prio, c⟩])) := rfl
  rw [hsubs] at hp
  have hcur : subsOrderedB ((alGet st.subscriptions ty).getD []) = true ∧
      ∀ s ∈ (alGet st.subscriptions ty).getD [], s.seq ≤ st.subscriptionCounter := by
    cases hg : alGet st.subscriptions ty with
    | none => simp [subsOrderedB]
    | some l => simpa using hI (ty, l) (alGet_mem hg)
  rcases mem_alSet hp with hnew | hold
  · rw [hnew]
    rw [sortSubs_append_single, sortSubs_fix hcur.1]
    constructor
    · apply subsOrderedB_iff_chain.mpr
      apply insertSub_chain (subsOrderedB_iff_chain.mp hcur.1)
      intro s hs
      exact Nat.lt_succ_of_le (hcur.2 s hs)
    · intro s hs
      rcases mem_insertSub hs with h' | h'
      · subst h'
        exact Nat.le.refl
      · exact Nat.le_succ_of_le (hcur.2 s h')
  · have := hI p hold
    exact ⟨this.1, fun s hs => Nat.le_succ_of_le (this.2 s hs)⟩

theorem subscribeMany_medInv (reqs : List SubReq) :
    ∀ st : MedState, MedInv st → MedInv (subscribeMany reqs st) := by
  induction reqs with
  | nil => intro st h; exact h
  | cons r rest ih =>
    intro st h
    exact ih _ (subscribe_preserves_medInv h r.eventType r.handler r.priority r.context r.filter)

theorem dispatch_invoked (e : MEvent) :
    ∀ (subs : List Subscription) (st : MedState),
      (dispatch e subs st).2.1
        = (subs.filter (fun s => filterAccepts s.filter e)).map (·.id) := by
  intro subs
  induction subs with
  | nil => intro st; rfl
  | cons sub rest ih =>
    intro st
    by_cases hf : filterAccepts sub.filter e
    · by_cases ht : sub.handler.throws <;> simp [dispatch, hf, ht, ih]
    · simp [dispatch, hf, ih]

theorem dispatch_state (e : MEvent) :
    ∀ (subs : List Subscription) (st : MedState),
      (dispatch e subs st).1
        = (subs.filter (fun s => filterAccepts s.filter e)).foldl
            (fun s' sub => runActs sub.handler.acts s') st := by
  intro subs
  induction subs with
  | nil => intro st; rfl
  | cons sub rest ih =>
    intro st
    by_cases hf : filterAccepts sub.filter e
    · by_cases ht : sub.handler.throws <;> simp [dispatch, hf, ht, ih]
    · simp [dispatch, hf, ih]

theorem filter_map_strip (e : MEvent) (l : List Subscription) :
    (((l.map (fun s =>
        { s with handler := { s.handler with throws := false } })).filter
          (fun s => filterAccepts s.filter e)).map (·.id))
      = ((l.filter (fun s => filterAccepts s.filter e)).map (·.id)) := by
  induction l with
  | nil => rfl
  | cons s rest ih =>
    by_cases hf : filterAccepts s.filter e <;>
      simp [List.filter_cons, hf, ih]

theorem subsFor_stripThrows (st : MedState) (ty : String) :
    subsFor (stripThrows st) ty = (subsFor st ty).map
      (fun s => { s with handler := { s.handler with throws := false } }) := by
  unfold subsFor stripThrows
  rw [alGet_map]
  cases alGet st.subscriptions ty <;> rfl

theorem etype_normalize (now : Nat) (e : MEvent) :
    (normalizeTimestamp now e).etype = e.etype := by
  unfold normalizeTimestamp
  split <;> rfl

theorem subsFor_history (e : MEvent) (st : MedState) (ty : String) :
    subsFor (addToEventHistory e st) ty = subsFor st ty := rfl

theorem publish_invoked (now : Nat) (e : MEvent) (st : MedState)
    (hty : ¬ e.etype = "") :
    (publish now e st).2.1
      = ((subsFor st e.etype).filter
          (fun s => filterAccepts s.filter (normalizeTimestamp now e))).map (·.id) := by
  rw [publish, if_neg hty, subsFor_history, etype_normalize]
  by_cases hemp : (subsFor st e.etype).isEmpty
  · rw [if_pos hemp]
    rw [List.isEmpty_iff.mp hemp]
    rfl
  · rw [if_neg hemp]
    exact dispatch_invoked _ _ _

theorem publish_state (now : Nat) (e : MEvent) (st : MedState)
    (hty : ¬ e.etype = "") :
    (publish now e st).1
      = ((subsFor st e.etype).filter
          (fun s => filterAccepts s.filter (normalizeTimestamp now e))).foldl
          (fun s' sub => runActs sub.handler.acts s')
          (addToEventHistory (normalizeTimestamp now e) st) := by
  rw [publish, if_neg hty, subsFor_history, etype_normalize]
  by_cases hemp : (subsFor st e.etype).isEmpty
  · rw [if_pos hemp]
    rw [List.isEmpty_iff.mp hemp]
    rfl
  · rw [if_neg hemp]
    exact dispatch_state _ _ _

/-- C4 (fault isolation in publish): `publish` is a total function of the
mediator state — a throwing handler is caught inside the dispatch loop — and
the list of invoked subscription ids is exactly the filter-accepting
subscribers for the event's type, unchanged if every handler's throwing is
stripped away: a handler that throws never prevents any remaining accepting
subscriber from being invoked in the same publish call. -/
theorem publish_fault_isolation (now : Nat) (e : MEvent) (st : MedState)
    (hty : ¬ e.etype = "") :
    (publish now e st).2.1
        = ((subsFor st e.etype).filter
            (fun s => filterAccepts s.filter (normalizeTimestamp now e))).map (·.id) ∧
    (publish now e (stripThrows st)).2.1 = (publish now e st).2.1 := by
  refine ⟨publish_invoked now e st hty, ?_⟩
  rw [publish_invoked now e st hty, publish_invoked now e (stripThrows st) hty]
  rw [subsFor_stripThrows]
  exact filter_map_strip _ _

/-- Witness for `publish_fault_isolation`: with a throwing priority-10
subscriber and a well-behaved priority-5 subscriber on `"t"`, publish still
invokes both, in priority order. -/
theorem publish_fault_isolation_witness :
    (publish 99 ⟨"t", "src", 1, 0⟩ faultIsolationState).2.1 = ["sub_1", "sub_2"] := by
  have h := publish_fault_isolation 99 ⟨"t", "src", 1, 0⟩ faultIsolationState (by decide)
  rw [h.1]
  rfl

/-- C5 (dispatch order): in any mediator state reached by a sequence of
`subscribe` calls, each per-type subscriber list is ordered by strictly
descending priority with ties in subscription (insertion) order, and
`publish` invokes exactly its filter-accepting subscribers in that list
order. -/
theorem dispatch_priority_order (reqs : List SubReq) (now : Nat) (e : MEvent)
    (hty : ¬ e.etype = "") :
    subsOrderedB (subsFor (subscribeMany reqs initialMedState) e.etype) = true ∧
    (publish now e (subscribeMany reqs initialMedState)).2.1
      = ((subsFor (subscribeMany reqs initialMedState) e.etype).filter
          (fun s => filterAccepts s.filter (normalizeTimestamp now e))).map (·.id) := by
  have hI := subscribeMany_medInv reqs initialMedState medInv_initial
  constructor
  · unfold subsFor
    cases hg : alGet (subscribeMany reqs initialMedState).subscriptions e.etype with
    | none => simp [subsOrderedB]
    | some l =>
      have := hI (e.etype, l) (alGet_mem hg)
      simpa using this.1
  · exact publish_invoked now e _ hty

/-- Witness for `dispatch_priority_order`: three subscriptions with
priorities 5, 10, 5 end up stored as 10 first and then the two 5s in
insertion order, and publish invokes them exactly in that order. -/
theorem dispatch_priority_order_witness :
    subsOrderedB (subsFor (subscribeMany
      [⟨"t", ⟨[], false⟩, 5, none, none⟩, ⟨"t", ⟨[], false⟩, 10, none, none⟩,
        ⟨"t", ⟨[], false⟩, 5, none, none⟩] initialMedState) "t") = true ∧
    (publish 99 ⟨"t", "src", 1, 0⟩ (subscribeMany
      [⟨"t", ⟨[], false⟩, 5, none, none⟩, ⟨"t", ⟨[], false⟩, 10, none, none⟩,
        ⟨"t", ⟨[], false⟩, 5, none, none⟩] initialMedState)).2.1
      = ["sub_2", "sub_1", "sub_3"] := by
  have h := dispatch_priority_order
    [⟨"t", ⟨[], false⟩, 5, none, none⟩, ⟨"t", ⟨[], false⟩, 10, none, none⟩,
      ⟨"t", ⟨[], false⟩, 5, none, none⟩] 99 ⟨"t", "src", 1, 0⟩ (by decide)
  refine ⟨h.1, ?_⟩
  rw [h.2]
  rfl

/-- C6 counterexample: `sub_1` (priority 10) unsubscribes `sub_2`
(priority 5) while `publish` is dispatching, yet `sub_2`'s handler is still
invoked in that same publish call — the mutation is applied to the
subscription map (the post-publish map for `"t"` holds only `sub_1`) but is
not visible to the in-flight dispatch, which iterates the subscriber array
captured at the start of `publish`. -/
theorem midPublish_unsub_counterexample :
    (publish 99 midPublishEvent midPublishState).2.1 = ["sub_1", "sub_2"] ∧
    ((subsFor (publish 99 midPublishEvent midPublishState).1 "t").map (·.id)
      = ["sub_1"]) := by
  exact ⟨rfl, rfl⟩

/-- C6 amended: map mutations made by handlers during `publish` do take
effect on the subscription map — the post-publish state is the sequential
application of every accepted handler's actions — but they are not visible
to the in-flight dispatch: every subscription in the snapshot taken at the
start of `publish` whose filter accepts the event is invoked in that publish
call, even when an earlier (higher-priority) handler unsubscribed it; the
removal affects subsequent publishes only. -/
theorem midPublish_mutation_semantics (now : Nat) (e : MEvent) (st : MedState)
    (hty : ¬ e.etype = "") :
    (∀ s ∈ subsFor st e.etype,
      filterAccepts s.filter (normalizeTimestamp now e) = true →
        s.id ∈ (publish now e st).2.1) ∧
    (publish now e st).1
      = ((subsFor st e.etype).filter
          (fun s => filterAccepts s.filter (normalizeTimestamp now e))).foldl
          (fun s' sub => runActs sub.handler.acts s')
          (addToEventHistory (normalizeTimestamp now e) st) := by
  constructor
  · intro s hs hacc
    rw [publish_invoked now e st hty]
    exact List.mem_map_of_mem _ (List.mem_filter.mpr ⟨hs, hacc⟩)
  · exact publish_state now e st hty

/-- Witness for `midPublish_mutation_semantics`: in the concrete
mid-publish-unsubscribe scenario, the unsubscribed `sub_2` is still invoked. -/
theorem midPublish_mutation_semantics_witness :
    "sub_2" ∈ (publish 99 midPublishEvent midPublishState).2.1 := by
  have h := midPublish_mutation_semantics 99 midPublishEvent midPublishState (by decide)
  refine h.1 ⟨"sub_2", 2, "t", ⟨[], false⟩, none, 5, none⟩ ?_ rfl
  rw [show midPublishEvent.etype = "t" from rfl]
  rw [show subsFor midPublishState "t"
    = [⟨"sub_1", 1, "t", ⟨[MedAct.unsub "sub_2"], false⟩, none, 10, none⟩,
       ⟨"sub_2", 2, "t", ⟨[], false⟩, none, 5, none⟩] from rfl]
  simp

/-! ### Overlay map and queue lemmas -/

theorem ovFind_ovSet_self (m : List (OverlayId × StoredOverlay)) (k : OverlayId)
    (v : StoredOverlay) : ovFind (ovSet m k v) k = some v := by
  induction m with
  | nil => simp [ovSet, ovFind]
  | cons e rest ih =>
    obtain ⟨a, b⟩ := e
    by_cases he : a = k
    · simp [ovSet, ovFind, he]
    · simp [ovSet, ovFind, he, ih]

theorem ovFind_ovSet_ne (m : List (OverlayId × StoredOverlay)) {k j : OverlayId}
    (v : StoredOverlay) (h : j ≠ k) : ovFind (ovSet m k v) j = ovFind m j := by
  induction m with
  | nil => simp [ovSet, ovFind, Ne.symm h]
  | cons e rest ih =>
    obtain ⟨a, b⟩ := e
    by_cases he : a = k
    · subst he
      simp [ovSet, ovFind, Ne.symm h]
    · by_cases hj : a = j <;> simp [ovSet, ovFind, he, hj, ih, h, Ne.symm h]

theorem ovFind_ovDel_ne (m : List (OverlayId × StoredOverlay)) {k j : OverlayId}
    (h : j ≠ k) : ovFind (ovDel m k) j = ovFind m j := by
  induction m with
  | nil => simp [ovDel]
  | cons e rest ih =>
    obtain ⟨a, b⟩ := e
    by_cases he : a = k
    · subst he
      simp [ovDel, ovFind, Ne.symm h]
    · by_cases hj : a = j <;> simp [ovDel, ovFind, he, hj, ih, h, Ne.symm h]

theorem ovFind_eq_none_iff (m : List (OverlayId × StoredOverlay)) (k : OverlayId) :
    ovFind m k = none ↔ k ∉ m.map (·.1) := by
  induction m with
  | nil => simp [ovFind]
  | cons e rest ih =>
    obtain ⟨a, b⟩ := e
    by_cases he : a = k
    · simp [ovFind, he]
    · rw [show ovFind ((a, b) :: rest) k = ovFind rest k by simp [ovFind, he]]
      rw [ih]
      have hka : ¬k = a := fun hh => he hh.symm
      simp [List.mem_cons, hka]

theorem ovFind_mem {k : OverlayId} {v : StoredOverlay} :
    ∀ {m : List (OverlayId × StoredOverlay)}, ovFind m k = some v → (k, v) ∈ m := by
  intro m
  induction m with
  | nil => intro h; simp [ovFind] at h
  | cons e rest ih =>
    intro h
    obtain ⟨a, b⟩ := e
    by_cases he : a = k
    · simp only [ovFind, if_pos he] at h
      cases h
      subst he
      exact List.mem_cons_self _ _
    · simp only [ovFind, if_neg he] at h
      exact List.mem_cons_of_mem _ (ih h)

theorem mem_ovSet {k : OverlayId} {v : StoredOverlay} {p : OverlayId × StoredOverlay} :
    ∀ {m : List (OverlayId × StoredOverlay)}, p ∈ ovSet m k v → p = (k, v) ∨ p ∈ m := by
  intro m
  induction m with
  | nil => intro h; simpa [ovSet] using h
  | cons e rest ih =>
    intro h
    obtain ⟨a, b⟩ := e
    by_cases he : a = k
    · simp only [ovSet, if_pos he] at h
      rcases List.mem_cons.mp h with h | h
      · exact Or.inl h
      · exact Or.inr (List.mem_cons_of_mem _ h)
    · simp only [ovSet, if_neg he] at h
      rcases List.mem_cons.mp h with h | h
      · exact Or.inr (by rw [h]; exact List.mem_cons_self _ _)
      · rcases ih h with h' | h'
        · exact Or.inl h'
        · exact Or.inr (List.mem_cons_of_mem _ h')

theorem mem_ovDel {k : OverlayId} {p : OverlayId × StoredOverlay} :
    ∀ {m : List (OverlayId × StoredOverlay)}, p ∈ ovDel m k → p ∈ m := by
  intro m
  induction m with
  | nil => intro h; simp [ovDel] at h
  | cons e rest ih =>
    intro h
    obtain ⟨a, b⟩ := e
    by_cases he : a = k
    · simp only [ovDel, if_pos he] at h
      exact List.mem_cons_of_mem _ h
    · simp only [ovDel, if_neg he] at h
      rcases List.mem_cons.mp h with h | h
      · exact (by rw [h]; exact List.mem_cons_self _ _)
      · exact List.mem_cons_of_mem _ (ih h)

theorem keys_ovSet_mem {k : OverlayId} {w : StoredOverlay} (v : StoredOverlay) :
    ∀ {m : List (OverlayId × StoredOverlay)}, ovFind m k = some w →
      (ovSet m k v).map (·.1) = m.map (·.1) := by
  intro m
  induction m with
  | nil => intro h; simp [ovFind] at h
  | cons e rest ih =>
    intro h
    obtain ⟨a, b⟩ := e
    by_cases he : a = k
    · subst he
      simp [ovSet]
    · simp only [ovFind, if_neg he] at h
      simp [ovSet, he, ih h]

theorem keys_ovSet_none {k : OverlayId} (v : StoredOverlay) :
    ∀ {m : List (OverlayId × StoredOverlay)}, ovFind m k = none →
      (ovSet m k v).map (·.1) = m.map (·.1) ++ [k] := by
  intro m
  induction m with
  | nil => intro _; simp [ovSet]
  | cons e rest ih =>
    intro h
    obtain ⟨a, b⟩ := e
    by_cases he : a = k
    · simp only [ovFind, if_pos he] at h
      exact Option.noConfusion h
    · simp only [ovFind, if_neg he] at h
      simp [ovSet, he, ih h]

theorem keys_ovDel (k : OverlayId) :
    ∀ (m : List (OverlayId × StoredOverlay)),
      (ovDel m k).map (·.1) = (m.map (·.1)).erase k := by
  intro m
  induction m with
  | nil => simp [ovDel]
  | cons e rest ih =>
    obtain ⟨a, b⟩ := e
    by_cases he : a = k
    · subst he
      simp [ovDel, List.erase_cons_head]
    · rw [show ovDel ((a, b) :: rest) k = (a, b) :: ovDel rest k by simp [ovDel, he]]
      simp only [List.map_cons]
      rw [List.erase_cons_tail (by simp [he])]
      rw [ih]

theorem mem_insertQueue (m : List (OverlayId × StoredOverlay)) (x z : OverlayId) :
    ∀ (l : List OverlayId), z ∈ insertQueue m x l ↔ z = x ∨ z ∈ l := by
  intro l
  induction l with
  | nil => simp [insertQueue]
  | cons y ys ih =>
    by_cases hc : queueKeepsFirst m y x
    · simp only [insertQueue, if_pos hc, List.mem_cons, ih]
      tauto
    · simp only [insertQueue, if_neg hc, List.mem_cons]

theorem mem_sortQueue_aux (m : List (OverlayId × StoredOverlay)) (z : OverlayId) :
    ∀ (q acc : List OverlayId),
      (z ∈ q.foldl (fun a y => insertQueue m y a) acc ↔ z ∈ acc ∨ z ∈ q) := by
  intro q
  induction q with
  | nil => simp
  | cons y ys ih =>
    intro acc
    rw [List.foldl_cons, ih]
    rw [mem_insertQueue]
    simp [List.mem_cons]
    tauto

theorem mem_sortQueue (m : List (OverlayId × StoredOverlay)) (z : OverlayId)
    (q : List OverlayId) : z ∈ sortQueue m q ↔ z ∈ q := by
  rw [sortQueue, mem_sortQueue_aux]
  simp

/-! ### Overlay invariant preservation -/

theorem ovFind_ovDel_self {m : List (OverlayId × StoredOverlay)} {k : OverlayId}
    (hnd : (m.map (·.1)).Nodup) : ovFind (ovDel m k) k = none := by
  rw [ovFind_eq_none_iff, keys_ovDel]
  exact hnd.not_mem_erase

theorem show_none {st : OvState} {i : OverlayId}
    (hf : ovFind st.overlays i = none) : showOverlayById i st = (false, st) := by
  simp [showOverlayById, hf]

theorem show_spec {st : OvState} {i : OverlayId} {o : StoredOverlay}
    (hf : ovFind st.overlays i = some o) :
    showOverlayById i st
      = (true,
          { st with
            overlays := ovSet st.overlays i { o with isVisible := true }
            activeOverlayId := some i
            overlayQueue := st.overlayQueue.filter (fun j => j ≠ i) }) := by
  simp [showOverlayById, hf]

theorem hide_missing {st : OvState} {i : OverlayId}
    (hf : ovFind st.overlays i = none) (pq : Bool) :
    hideOverlayById i pq st = (false, st) := by
  simp [hideOverlayById, hf]

theorem hide_invisible {st : OvState} {i : OverlayId} {o : StoredOverlay} (pq : Bool)
    (hf : ovFind st.overlays i = some o) (hv : o.isVisible = false) :
    hideOverlayById i pq st = (false, st) := by
  simp [hideOverlayById, hf, hv]

theorem hide_noProcess_spec {st : OvState} {i : OverlayId} {o : StoredOverlay}
    (hf : ovFind st.overlays i = some o) (hv : o.isVisible = true)
    (hact : st.activeOverlayId = some i) :
    (hideOverlayById i false st).2
      = { st with
          overlays := ovSet st.overlays i { o with isVisible := false }
          activeOverlayId := none } := by
  simp [hideOverlayById, hf, hv, hact]

theorem hide_noQueue_spec {st : OvState} {i : OverlayId} {o : StoredOverlay}
    (hf : ovFind st.overlays i = some o) (hv : o.isVisible = true)
    (hact : st.activeOverlayId = some i) (hq : st.overlayQueue = []) (pq : Bool) :
    (hideOverlayById i pq st).2
      = { st with
          overlays := ovSet st.overlays i { o with isVisible := false }
          activeOverlayId := none } := by
  simp [hideOverlayById, hf, hv, hact, hq]

theorem hide_process_spec {st : OvState} {i n : OverlayId} {rest : List OverlayId}
    {o : StoredOverlay}
    (hf : ovFind st.overlays i = some o) (hv : o.isVisible = true)
    (hact : st.activeOverlayId = some i) (hq : st.overlayQueue = n :: rest) :
    (hideOverlayById i true st).2
      = (showOverlayById n
          { st with
            overlays := ovSet st.overlays i { o with isVisible := false }
            activeOverlayId := none
            overlayQueue := rest }).2 := by
  simp [hideOverlayById, hf, hv, hact, hq]

theorem hide_notActive_spec {st : OvState} {i : OverlayId} {o : StoredOverlay}
    (hf : ovFind st.overlays i = some o) (hv : o.isVisible = true)
    (hact : ¬ st.activeOverlayId = some i) (pq : Bool) :
    (hideOverlayById i pq st).2
      = { st with overlays := ovSet st.overlays i { o with isVisible := false } } := by
  simp [hideOverlayById, hf, hv, hact]

theorem noVisible_of_active_none {st : OvState} (hI : OvInv st)
    (ha : st.activeOverlayId = none) {k : OverlayId} {o : StoredOverlay}
    (hf : ovFind st.overlays k = some o) : o.isVisible = false := by
  cases hv : o.isVisible
  · rfl
  · have := hI.visibleIsActive k o hf hv
    rw [ha] at this
    exact Option.noConfusion this

theorem show_preserves {st : OvState} (hI : OvInv st)
    (ha : st.activeOverlayId = none) (i : OverlayId) :
    OvInv (showOverlayById i st).2 := by
  cases hf : ovFind st.overlays i with
  | none =>
    rw [show_none hf]
    exact hI
  | some o =>
    rw [show_spec hf]
    refine ⟨?_, ?_, ?_, ?_, ?_⟩
    · show (List.map (·.1) (ovSet st.overlays i { o with isVisible := true })).Nodup
      rw [keys_ovSet_mem _ hf]
      exact hI.keysNodup
    · intro e he
      rcases mem_ovSet he with h' | h'
      · rw [h']
        exact hI.ticksLt (i, o) (ovFind_mem hf)
      · exact hI.ticksLt e h'
    · intro k o' hfk hvk
      by_cases hk : k = i
      · rw [hk]
      · have hfk' : ovFind (ovSet st.overlays i { o with isVisible := true }) k
            = some o' := hfk
        rw [ovFind_ovSet_ne _ _ hk] at hfk'
        have := hI.visibleIsActive k o' hfk' hvk
        rw [ha] at this
        exact Option.noConfusion this
    · intro a haeq
      cases haeq
      exact ⟨{ o with isVisible := true }, ovFind_ovSet_self _ _ _, rfl⟩
    · intro a haeq
      cases haeq
      simp

theorem inv_after_mark_hidden {st : OvState} (hI : OvInv st) {i : OverlayId}
    {o : StoredOverlay} (hf : ovFind st.overlays i = some o)
    (hact : st.activeOverlayId = some i) (q : List OverlayId) :
    OvInv
      { st with
        overlays := ovSet st.overlays i { o with isVisible := false }
        activeOverlayId := none
        overlayQueue := q } := by
  refine ⟨?_, ?_, ?_, ?_, ?_⟩
  · show (List.map (·.1) (ovSet st.overlays i { o with isVisible := false })).Nodup
    rw [keys_ovSet_mem _ hf]
    exact hI.keysNodup
  · intro e he
    rcases mem_ovSet he with h' | h'
    · rw [h']
      exact hI.ticksLt (i, o) (ovFind_mem hf)
    · exact hI.ticksLt e h'
  · intro k o' hfk hvk
    have hfk' : ovFind (ovSet st.overlays i { o with isVisible := false }) k
        = some o' := hfk
    by_cases hk : k = i
    · subst hk
      rw [ovFind_ovSet_self] at hfk'
      cases hfk'
      exact absurd hvk (by simp)
    · rw [ovFind_ovSet_ne _ _ hk] at hfk'
      have := hI.visibleIsActive k o' hfk' hvk
      rw [hact] at this
      injection this with hik
      exact absurd hik.symm hk
  · intro a haeq
    exact Option.noConfusion haeq
  · intro a haeq
    exact Option.noConfusion haeq

theorem hide_preserves {st : OvState} (hI : OvInv st) (i : OverlayId) (pq : Bool) :
    OvInv (hideOverlayById i pq st).2 := by
  cases hf : ovFind st.overlays i with
  | none =>
    rw [hide_missing hf]
    exact hI
  | some o =>
    cases hv : o.isVisible with
    | false =>
      rw [hide_invisible pq hf hv]
      exact hI
    | true =>
      have hact := hI.visibleIsActive i o hf hv
      by_cases hpq : pq = true ∧ st.overlayQueue ≠ []
      · obtain ⟨hpq1, hpq2⟩ := hpq
        cases hq : st.overlayQueue with
        | nil => exact absurd hq hpq2
        | cons n rest =>
          have hres : (hideOverlayById i pq st).2
              = (showOverlayById n
                  { st with
                    overlays := ovSet st.overlays i { o with isVisible := false }
                    activeOverlayId := none
                    overlayQueue := rest }).2 := by
            simp [hideOverlayById, hf, hv, hact, hpq1, hq]
          rw [hres]
          exact show_preserves (inv_after_mark_hidden hI hf hact rest) rfl n
      · have hres : (hideOverlayById i pq st).2
            = { st with
                overlays := ovSet st.overlays i { o with isVisible := false }
                activeOverlayId := none } := by
          rcases Decidable.not_and_iff_or_not.mp hpq with h1 | h2
          · have hpqf : pq = false := by
              cases pq
              · rfl
              · exact absurd rfl h1
            simp [hideOverlayById, hf, hv, hact, hpqf]
          · have hqe : st.overlayQueue = [] := by
              by_contra hc
              exact h2 hc
            simp [hideOverlayById, hf, hv, hact, hqe]
        rw [hres]
        exact inv_after_mark_hidden hI hf hact st.overlayQueue

theorem addToQueue_active (i : OverlayId) (st : OvState) :
    (addToQueue i st).activeOverlayId = st.activeOverlayId := by
  unfold addToQueue
  split <;> rfl

theorem addToQueue_overlays (i : OverlayId) (st : OvState) :
    (addToQueue i st).overlays = st.overlays := by
  unfold addToQueue
  split <;> rfl

theorem addToQueue_clock (i : OverlayId) (st : OvState) :
    (addToQueue i st).clock = st.clock := by
  unfold addToQueue
  split <;> rfl

theorem mem_addToQueue {z i : OverlayId} {st : OvState}
    (h : z ∈ (addToQueue i st).overlayQueue) : z = i ∨ z ∈ st.overlayQueue := by
  unfold addToQueue at h
  by_cases hmem : i ∈ st.overlayQueue
  · rw [if_pos hmem] at h
    exact Or.inr h
  · rw [if_neg hmem] at h
    have := (mem_sortQueue _ _ _).mp h
    rcases List.mem_append.mp this with h' | h'
    · exact Or.inr h'
    · exact Or.inl (by simpa using h')

theorem addToQueue_preserves {st : OvState} (hI : OvInv st) {i : OverlayId}
    (hne : ∀ a, st.activeOverlayId = some a → a ≠ i) :
    OvInv (addToQueue i st) := by
  refine ⟨?_, ?_, ?_, ?_, ?_⟩
  · rw [addToQueue_overlays]
    exact hI.keysNodup
  · intro e he
    rw [addToQueue_overlays] at he
    rw [addToQueue_clock]
    exact hI.ticksLt e he
  · intro k o hfk hvk
    rw [addToQueue_overlays] at hfk
    rw [addToQueue_active]
    exact hI.visibleIsActive k o hfk hvk
  · intro a ha
    rw [addToQueue_active] at ha
    obtain ⟨o, hfo, hvo⟩ := hI.activeVisible a ha
    rw [addToQueue_overlays]
    exact ⟨o, hfo, hvo⟩
  · intro a ha hq
    rw [addToQueue_active] at ha
    rcases mem_addToQueue hq with h' | h'
    · exact hne a ha h'
    · exact hI.activeNotQueued a ha h'

theorem register_fresh {st : OvState} (hI : OvInv st) (owner t : String) :
    ovFind st.overlays ⟨owner, t, st.clock⟩ = none := by
  rw [ovFind_eq_none_iff]
  intro hmem
  obtain ⟨e, he, heq⟩ := List.mem_map.mp hmem
  have := hI.ticksLt e he
  rw [heq] at this
  simp at this

theorem inv_insert_fresh {st : OvState} (hI : OvInv st) (owner t : String)
    (opts : OverlayOptions) (p : Int) :
    OvInv
      { st with
        overlays := ovSet st.overlays ⟨owner, t, st.clock⟩
          { id := ⟨owner, t, st.clock⟩, overlayType := t, options := opts, owner := owner,
            priority := p, isVisible := false, createdAt := st.clock }
        clock := st.clock + 1 } := by
  have hfresh := register_fresh hI owner t
  have hnotmem : (⟨owner, t, st.clock⟩ : OverlayId) ∉ st.overlays.map (·.1) :=
    (ovFind_eq_none_iff _ _).mp hfresh
  refine ⟨?_, ?_, ?_, ?_, ?_⟩
  · show (List.map (·.1) (ovSet st.overlays ⟨owner, t, st.clock⟩ _)).Nodup
    rw [keys_ovSet_none _ hfresh]
    rw [List.nodup_append]
    refine ⟨hI.keysNodup, List.nodup_singleton _, ?_⟩
    intro z hz hz'
    rw [List.mem_singleton] at hz'
    rw [hz'] at hz
    exact hnotmem hz
  · intro e he
    rcases mem_ovSet he with h' | h'
    · rw [h']
      simp
    · have := hI.ticksLt e h'
      exact Nat.lt_succ_of_lt this
  · intro k o hfk hvk
    have hfk' : ovFind (ovSet st.overlays ⟨owner, t, st.clock⟩
        { id := ⟨owner, t, st.clock⟩, overlayType := t, options := opts, owner := owner,
          priority := p, isVisible := false, createdAt := st.clock }) k = some o := hfk
    by_cases hk : k = (⟨owner, t, st.clock⟩ : OverlayId)
    · subst hk
      rw [ovFind_ovSet_self] at hfk'
      cases hfk'
      exact absurd hvk (by simp)
    · rw [ovFind_ovSet_ne _ _ hk] at hfk'
      exact hI.visibleIsActive k o hfk' hvk
  · intro a ha
    obtain ⟨o, hfo, hvo⟩ := hI.activeVisible a ha
    have hane : a ≠ (⟨owner, t, st.clock⟩ : OverlayId) := by
      intro hEq
      rw [hEq, hfresh] at hfo
      exact Option.noConfusion hfo
    refine ⟨o, ?_, hvo⟩
    show ovFind (ovSet st.overlays ⟨owner, t, st.clock⟩ _) a = some o
    rw [ovFind_ovSet_ne _ _ hane]
    exact hfo
  · intro a ha
    exact hI.activeNotQueued a ha

theorem registerDispatch_preserves (i : OverlayId) {st1 : OvState} (hI1 : OvInv st1)
    (hne : ∀ a, st1.activeOverlayId = some a → a ≠ i) :
    OvInv (registerDispatch i st1) := by
  unfold registerDispatch
  cases hact : st1.activeOverlayId with
  | none => exact show_preserves hI1 hact i
  | some a =>
    have hI2 : OvInv (addToQueue i st1) := addToQueue_preserves hI1 hne
    have hact2 : (addToQueue i st1).activeOverlayId = some a := by
      rw [addToQueue_active]
      exact hact
    cases hfa : ovFind (addToQueue i st1).overlays a with
    | none =>
      simp only [hfa]
      exact hI2
    | some ao =>
      cases hfi : ovFind (addToQueue i st1).overlays i with
      | none =>
        simp only [hfa, hfi]
        exact hI2
      | some no =>
        simp only [hfa, hfi]
        by_cases hp : ao.priority < no.priority
        · rw [if_pos hp]
          have hva : ao.isVisible = true := by
            obtain ⟨o', hfo', hvo'⟩ := hI2.activeVisible a hact2
            rw [hfa] at hfo'
            injection hfo' with ho'
            rw [ho']
            exact hvo'
          have hI3 := hide_preserves hI2 a false
          refine show_preserves hI3 ?_ i
          rw [hide_noProcess_spec hfa hva hact2]
        · rw [if_neg hp]
          exact hI2

theorem register_preserves {st : OvState} (hI : OvInv st) (owner t : String)
    (opts : OverlayOptions) (p : Int) :
    OvInv (registerOverlay owner t opts p st).2 := by
  have hI1 := inv_insert_fresh hI owner t opts p
  refine registerDispatch_preserves _ hI1 ?_
  intro a ha
  have ha' : st.activeOverlayId = some a := ha
  obtain ⟨oa, hfa, _⟩ := hI.activeVisible a ha'
  intro hEq
  rw [hEq, register_fresh hI owner t] at hfa
  exact Option.noConfusion hfa

theorem hide_hidden_after {st : OvState} (hI : OvInv st) (i : OverlayId) (pq : Bool)
    {o : StoredOverlay} (hf : ovFind st.overlays i = some o) :
    ∃ o', ovFind (hideOverlayById i pq st).2.overlays i = some o'
      ∧ o'.isVisible = false := by
  cases hv : o.isVisible with
  | false =>
    rw [hide_invisible pq hf hv]
    exact ⟨o, hf, hv⟩
  | true =>
    have hact := hI.visibleIsActive i o hf hv
    by_cases hpq : pq = true ∧ st.overlayQueue ≠ []
    · obtain ⟨hpq1, hpq2⟩ := hpq
      cases hq : st.overlayQueue with
      | nil => exact absurd hq hpq2
      | cons n rest =>
        have hni : n ≠ i := by
          intro hEq
          refine hI.activeNotQueued i hact ?_
          rw [hq, ← hEq]
          exact List.mem_cons_self _ _
        have hres : (hideOverlayById i pq st).2
            = (showOverlayById n
                { st with
                  overlays := ovSet st.overlays i { o with isVisible := false }
                  activeOverlayId := none
                  overlayQueue := rest }).2 := by
          simp [hideOverlayById, hf, hv, hact, hpq1, hq]
        rw [hres]
        cases hfn : ovFind (ovSet st.overlays i { o with isVisible := false }) n with
        | none =>
          have hfn' : ovFind ({ st with
              overlays := ovSet st.overlays i { o with isVisible := false }
              activeOverlayId := none
              overlayQueue := rest } : OvState).overlays n = none := hfn
          rw [show_none hfn']
          exact ⟨{ o with isVisible := false }, ovFind_ovSet_self _ _ _, rfl⟩
        | some onv =>
          have hfn' : ovFind ({ st with
              overlays := ovSet st.overlays i { o with isVisible := false }
              activeOverlayId := none
              overlayQueue := rest } : OvState).overlays n = some onv := hfn
          rw [show_spec hfn']
          refine ⟨{ o with isVisible := false }, ?_, rfl⟩
          show ovFind (ovSet (ovSet st.overlays i { o with isVisible := false }) n
            { onv with isVisible := true }) i = some { o with isVisible := false }
          rw [ovFind_ovSet_ne _ _ (fun hh => hni hh.symm)]
          exact ovFind_ovSet_self _ _ _
    · have hres : (hideOverlayById i pq st).2
          = { st with
              overlays := ovSet st.overlays i { o with isVisible := false }
              activeOverlayId := none } := by
        rcases Decidable.not_and_iff_or_not.mp hpq with h1 | h2
        · have hpqf : pq = false := by
            cases pq
            · rfl
            · exact absurd rfl h1
          simp [hideOverlayById, hf, hv, hact, hpqf]
        · have hqe : st.overlayQueue = [] := by
            by_contra hc
            exact h2 hc
          simp [hideOverlayById, hf, hv, hact, hqe]
      rw [hres]
      exact ⟨{ o with isVisible := false }, ovFind_ovSet_self _ _ _, rfl⟩

theorem remove_missing {st : OvState} {i : OverlayId}
    (hf : ovFind st.overlays i = none) : removeOverlayById i st = (false, st) := by
  simp [removeOverlayById, hf]

theorem remove_spec {st : OvState} {i : OverlayId} {o : StoredOverlay}
    (hf : ovFind st.overlays i = some o) :
    (removeOverlayById i st).2
      = { (hideOverlayById i true st).2 with
          overlays := ovDel (hideOverlayById i true st).2.overlays i } := by
  simp [removeOverlayById, hf]

theorem remove_preserves {st : OvState} (hI : OvInv st) (i : OverlayId) :
    OvInv (removeOverlayById i st).2 := by
  cases hf : ovFind st.overlays i with
  | none =>
    rw [remove_missing hf]
    exact hI
  | some o =>
    rw [remove_spec hf]
    have hI1 := hide_preserves hI i true
    obtain ⟨o', hfo', hvo'⟩ := hide_hidden_after hI i true hf
    refine ⟨?_, ?_, ?_, ?_, ?_⟩
    · show (List.map (·.1) (ovDel (hideOverlayById i true st).2.overlays i)).Nodup
      rw [keys_ovDel]
      exact hI1.keysNodup.erase _
    · intro e he
      exact hI1.ticksLt e (mem_ovDel he)
    · intro k ok hfk hvk
      have hfk' : ovFind (ovDel (hideOverlayById i true st).2.overlays i) k
          = some ok := hfk
      by_cases hk : k = i
      · subst hk
        rw [ovFind_ovDel_self hI1.keysNodup] at hfk'
        exact Option.noConfusion hfk'
      · rw [ovFind_ovDel_ne _ hk] at hfk'
        exact hI1.visibleIsActive k ok hfk' hvk
    · intro a ha
      obtain ⟨oa, hfa, hva⟩ := hI1.activeVisible a ha
      have hai : a ≠ i := by
        intro hEq
        rw [hEq, hfo'] at hfa
        injection hfa with ho
        rw [← ho] at hva
        rw [hvo'] at hva
        exact Bool.noConfusion hva
      refine ⟨oa, ?_, hva⟩
      show ovFind (ovDel (hideOverlayById i true st).2.overlays i) a = some oa
      rw [ovFind_ovDel_ne _ hai]
      exact hfa
    · intro a ha
      exact hI1.activeNotQueued a ha

theorem fold_remove_preserves (L : List OverlayId) :
    ∀ st : OvState, OvInv st →
      OvInv (L.foldl (fun s j => (removeOverlayById j s).2) st) := by
  induction L with
  | nil => intro st h; exact h
  | cons j rest ih =>
    intro st h
    rw [List.foldl_cons]
    exact ih _ (remove_preserves h j)

theorem pairFold_state (L : List OverlayId) :
    ∀ (n : Nat) (st : OvState),
      (L.foldl (fun acc i =>
        ((acc.1 + (if (removeOverlayById i acc.2).1 then 1 else 0) : Nat),
          (removeOverlayById i acc.2).2)) (n, st)).2
      = L.foldl (fun s j => (removeOverlayById j s).2) st := by
  induction L with
  | nil => intro n st; rfl
  | cons j rest ih =>
    intro n st
    rw [List.foldl_cons, List.foldl_cons]
    exact ih _ _

theorem removeByOwner_state (owner : String) (st : OvState) :
    (removeOverlaysByOwner owner st).2
      = ((st.overlays.filter (fun e => e.2.owner = owner)).map (·.1)).foldl
          (fun s j => (removeOverlayById j s).2) st := by
  unfold removeOverlaysByOwner
  exact pairFold_state _ 0 st

theorem removeByOwner_preserves {st : OvState} (hI : OvInv st) (owner : String) :
    OvInv (removeOverlaysByOwner owner st).2 := by
  rw [removeByOwner_state]
  exact fold_remove_preserves _ st hI

theorem checkRestore_preserves {st : OvState} (hI : OvInv st) (owner : String) :
    OvInv (checkAndRestoreOverlaysByOwner owner st) := by
  unfold checkAndRestoreOverlaysByOwner
  generalize st.overlays.map (·.1) = L
  induction L generalizing st with
  | nil => exact hI
  | cons j rest ih =>
    rw [List.foldl_cons]
    apply ih
    cases hf : ovFind st.overlays j with
    | none =>
      simp only [hf]
      exact hI
    | some o =>
      simp only [hf]
      by_cases hcond : o.owner = owner ∧ o.options.autoRestore ≠ some false
          ∧ o.isVisible = false
      · rw [if_pos hcond]
        cases hact : st.activeOverlayId with
        | some a =>
          refine addToQueue_preserves hI ?_
          intro a' ha'
          intro hEq
          obtain ⟨oa, hfa, hva⟩ := hI.activeVisible a' ha'
          rw [hEq, hf] at hfa
          injection hfa with ho
          rw [← ho] at hva
          rw [hcond.2.2] at hva
          exact Bool.noConfusion hva
        | none => exact show_preserves hI hact j
      · rw [if_neg hcond]
        exact hI

theorem keys_show (i : OverlayId) (st : OvState) :
    (showOverlayById i st).2.overlays.map (·.1) = st.overlays.map (·.1) := by
  cases hf : ovFind st.overlays i with
  | none => rw [show_none hf]
  | some o =>
    rw [show_spec hf]
    exact keys_ovSet_mem _ hf

theorem keys_hide (i : OverlayId) (pq : Bool) (st : OvState) :
    (hideOverlayById i pq st).2.overlays.map (·.1) = st.overlays.map (·.1) := by
  cases hf : ovFind st.overlays i with
  | none => rw [hide_missing hf]
  | some o =>
    cases hv : o.isVisible with
    | false => rw [hide_invisible pq hf hv]
    | true =>
      by_cases hact : st.activeOverlayId = some i
      · cases pq with
        | false =>
          rw [hide_noProcess_spec hf hv hact]
          exact keys_ovSet_mem _ hf
        | true =>
          cases hq : st.overlayQueue with
          | nil =>
            rw [hide_noQueue_spec hf hv hact hq]
            exact keys_ovSet_mem _ hf
          | cons n rest =>
            rw [hide_process_spec hf hv hact hq, keys_show]
            exact keys_ovSet_mem _ hf
      · rw [hide_notActive_spec hf hv hact]
        exact keys_ovSet_mem _ hf

theorem keys_removeById (i : OverlayId) (st : OvState) :
    (removeOverlayById i st).2.overlays.map (·.1) = (st.overlays.map (·.1)).erase i := by
  cases hf : ovFind st.overlays i with
  | none =>
    rw [remove_missing hf]
    rw [List.erase_of_not_mem ((ovFind_eq_none_iff _ _).mp hf)]
  | some o =>
    rw [remove_spec hf]
    show (ovDel (hideOverlayById i true st).2.overlays i).map (·.1) = _
    rw [keys_ovDel, keys_hide]

theorem fold_remove_keys (L : List OverlayId) :
    ∀ st : OvState,
      (L.foldl (fun s j => (removeOverlayById j s).2) st).overlays.map (·.1)
        = L.foldl (fun ks j => ks.erase j) (st.overlays.map (·.1)) := by
  induction L with
  | nil => intro st; rfl
  | cons j rest ih =>
    intro st
    rw [List.foldl_cons, List.foldl_cons, ih, keys_removeById]

theorem foldl_erase_self {α : Type} [DecidableEq α] :
    ∀ l : List α, l.foldl (fun ks j => ks.erase j) l = [] := by
  intro l
  induction l with
  | nil => rfl
  | cons a rest ih =>
    rw [List.foldl_cons, List.erase_cons_head]
    exact ih

theorem clearAll_overlays_nil (st : OvState) :
    ((st.overlays.map (·.1)).foldl (fun s j => (removeOverlayById j s).2) st).overlays
      = [] := by
  have hk := fold_remove_keys (st.overlays.map (·.1)) st
  rw [foldl_erase_self] at hk
  cases hς : ((st.overlays.map (·.1)).foldl (fun s j => (removeOverlayById j s).2)
      st).overlays with
  | nil => rfl
  | cons e rest =>
    rw [hς] at hk
    exact absurd hk (by simp)

theorem clearAll_preserves (st : OvState) : OvInv (clearAllOverlays st) := by
  unfold clearAllOverlays
  have hnil := clearAll_overlays_nil st
  refine ⟨?_, ?_, ?_, ?_, ?_⟩
  · show (List.map (·.1)
      ((st.overlays.map (·.1)).foldl (fun s j => (removeOverlayById j s).2) st).overlays).Nodup
    rw [hnil]
    exact List.nodup_nil
  · intro e he
    have he' : e ∈ ((st.overlays.map (·.1)).foldl
        (fun s j => (removeOverlayById j s).2) st).overlays := he
    rw [hnil] at he'
    exact absurd he' (List.not_mem_nil e)
  · intro k o hfk hvk
    have hfk' : ovFind ((st.overlays.map (·.1)).foldl
        (fun s j => (removeOverlayById j s).2) st).overlays k = some o := hfk
    rw [hnil] at hfk'
    exact Option.noConfusion hfk'
  · intro a ha
    exact Option.noConfusion ha
  · intro a ha
    exact Option.noConfusion ha

theorem shown_preserves {st : OvState} (hI : OvInv st) (s t : String)
    (opts : OverlayOptions) (p : Int) : OvInv (handleOverlayShown s t opts p st) := by
  simp only [handleOverlayShown]
  by_cases hdup : st.overlays.any (fun e => e.2.owner = s ∧ e.2.overlayType = t)
  · rw [if_pos hdup]
    cases hfind : st.overlays.find? (fun e => e.2.owner = s ∧ e.2.overlayType = t) with
    | none => exact register_preserves hI s t opts p
    | some d =>
      obtain ⟨dId, dv⟩ := d
      exact register_preserves (remove_preserves hI dId) s t opts p
  · rw [if_neg hdup]
    exact register_preserves hI s t opts p

theorem ovInv_initial : OvInv initialOvState := by
  refine ⟨?_, ?_, ?_, ?_, ?_⟩
  · exact List.nodup_nil
  · intro e he
    exact absurd he (List.not_mem_nil e)
  · intro k o hfk
    exact fun _ => Option.noConfusion hfk
  · intro a ha
    exact Option.noConfusion ha
  · intro a ha
    exact Option.noConfusion ha

theorem ovStep_preserves {st : OvState} (hI : OvInv st) (op : OvOp) :
    OvInv (ovStep st op) := by
  cases op with
  | register owner t opts p => exact register_preserves hI owner t opts p
  | shown s t opts p => exact shown_preserves hI s t opts p
  | removeById i => exact remove_preserves hI i
  | removeByOwner o => exact removeByOwner_preserves hI o
  | checkRestore o => exact checkRestore_preserves hI o
  | clearAll => exact clearAll_preserves st

theorem ovInv_run (ops : List OvOp) : OvInv (ovRun ops) := by
  unfold ovRun
  generalize hst : initialOvState = st0
  have h0 : OvInv st0 := by rw [← hst]; exact ovInv_initial
  clear hst
  induction ops generalizing st0 with
  | nil => exact h0
  | cons op rest ih =>
    rw [List.foldl_cons]
    exact ih _ (ovStep_preserves h0 op)

/-- C1 (single active overlay): after any sequence of public operations on a
`SecurityOverlayManager` — `registerOverlay` calls and the overlay-event
handlers (`OVERLAY_SHOWN` = dedup + register, `OVERLAY_REMOVED` = remove by
owner, `OVERLAY_RESTORED` = check-and-restore, plus the removal entry
points) — every stored overlay with `isVisible = true` is the one identified
by `activeOverlayId`; in particular at most one stored overlay is visible. -/
theorem single_active_overlay (ops : List OvOp) :
    (∀ k o, ovFind (ovRun ops).overlays k = some o → o.isVisible = true →
      (ovRun ops).activeOverlayId = some k) ∧
    (∀ k k' o o', ovFind (ovRun ops).overlays k = some o →
      ovFind (ovRun ops).overlays k' = some o' →
      o.isVisible = true → o'.isVisible = true → k = k') := by
  have hI := ovInv_run ops
  refine ⟨hI.visibleIsActive, ?_⟩
  intro k k' o o' hf hf' hv hv'
  have h1 := hI.visibleIsActive k o hf hv
  have h2 := hI.visibleIsActive k' o' hf' hv'
  rw [h1] at h2
  injection h2

/-- Witness for `single_active_overlay`: in the concrete preemption run the
visible overlay `b` is indeed the active one. -/
theorem single_active_overlay_witness :
    (ovRun preemptOps).activeOverlayId = some ⟨"b", "t2", 1⟩ := by
  exact (single_active_overlay preemptOps).1 ⟨"b", "t2", 1⟩
    ⟨⟨"b", "t2", 1⟩, "t2", {}, "b", 2, true, 1⟩ (by decide) (by decide)

/-- C2 counterexample: registering `"b"` (priority 2) while `"a"` (priority
1) is active makes `"b"` active, but the waiting queue ends up EMPTY — the
preempted overlay `"a"` is hidden and retained in storage without being
moved to the front of the waiting queue, so it is not the next one promoted;
`registerOverlay` hides the active overlay with `processQueue = false` and
never enqueues it. -/
theorem preemption_counterexample :
    (ovRun preemptOps).activeOverlayId = some ⟨"b", "t2", 1⟩ ∧
    (ovRun preemptOps).overlayQueue = [] ∧
    (ovFind (ovRun preemptOps).overlays ⟨"a", "t1", 0⟩).map (·.isVisible)
      = some false := by
  decide

/-- C2 amended: registering an overlay with priority strictly greater than
the active overlay's makes the new overlay active and visible, while the
previously active overlay is hidden and remains stored but is NOT added to
the waiting queue (it is not the next promoted overlay). -/
theorem preemption_amended (st : OvState) (hI : OvInv st) (a : OverlayId)
    (oa : StoredOverlay) (ha : st.activeOverlayId = some a)
    (hfa : ovFind st.overlays a = some oa) (owner t : String)
    (opts : OverlayOptions) (p : Int) (hp : oa.priority < p) :
    (registerOverlay owner t opts p st).2.activeOverlayId
        = some ⟨owner, t, st.clock⟩ ∧
    (ovFind (registerOverlay owner t opts p st).2.overlays
      ⟨owner, t, st.clock⟩).map (·.isVisible) = some true ∧
    (ovFind (registerOverlay owner t opts p st).2.overlays a).map (·.isVisible)
      = some false ∧
    a ∉ (registerOverlay owner t opts p st).2.overlayQueue := by
  have hfresh := register_fresh hI owner t
  have hai : a ≠ (⟨owner, t, st.clock⟩ : OverlayId) := by
    intro hEq
    rw [hEq, hfresh] at hfa
    exact Option.noConfusion hfa
  have hva : oa.isVisible = true := by
    obtain ⟨o', hfo', hvo'⟩ := hI.activeVisible a ha
    rw [hfa] at hfo'
    injection hfo' with h
    rw [h]
    exact hvo'
  have h2a : ovFind (addToQueue ⟨owner, t, st.clock⟩
      { st with
        overlays := ovSet st.overlays ⟨owner, t, st.clock⟩
          { id := ⟨owner, t, st.clock⟩, overlayType := t, options := opts, owner := owner,
            priority := p, isVisible := false, createdAt := st.clock }
        clock := st.clock + 1 }).overlays a = some oa := by
    rw [addToQueue_overlays]
    show ovFind (ovSet st.overlays ⟨owner, t, st.clock⟩ _) a = some oa
    rw [ovFind_ovSet_ne _ _ hai]
    exact hfa
  have h2i : ovFind (addToQueue ⟨owner, t, st.clock⟩
      { st with
        overlays := ovSet st.overlays ⟨owner, t, st.clock⟩
          { id := ⟨owner, t, st.clock⟩, overlayType := t, options := opts, owner := owner,
            priority := p, isVisible := false, createdAt := st.clock }
        clock := st.clock + 1 }).overlays ⟨owner, t, st.clock⟩
      = some
          { id := ⟨owner, t, st.clock⟩, overlayType := t, options := opts, owner := owner,
            priority := p, isVisible := false, createdAt := st.clock } := by
    rw [addToQueue_overlays]
    exact ovFind_ovSet_self _ _ _
  have hact2 : (addToQueue ⟨owner, t, st.clock⟩
      { st with
        overlays := ovSet st.overlays ⟨owner, t, st.clock⟩
          { id := ⟨owner, t, st.clock⟩, overlayType := t, options := opts, owner := owner,
            priority := p, isVisible := false, createdAt := st.clock }
        clock := st.clock + 1 }).activeOverlayId = some a := by
    rw [addToQueue_active]
    exact ha
  have hdisp : (registerOverlay owner t opts p st).2
      = (showOverlayById ⟨owner, t, st.clock⟩
          (hideOverlayById a false (addToQueue ⟨owner, t, st.clock⟩
            { st with
              overlays := ovSet st.overlays ⟨owner, t, st.clock⟩
                { id := ⟨owner, t, st.clock⟩, overlayType := t, options := opts,
                  owner := owner, priority := p, isVisible := false,
                  createdAt := st.clock }
              clock := st.clock + 1 })).2).2 := by
    show registerDispatch _ _ = _
    unfold registerDispatch
    rw [show ({ st with
        overlays := ovSet st.overlays ⟨owner, t, st.clock⟩
          { id := ⟨owner, t, st.clock⟩, overlayType := t, options := opts, owner := owner,
            priority := p, isVisible := false, createdAt := st.clock }
        clock := st.clock + 1 } : OvState).activeOverlayId = some a from ha]
    rw [ha] at h2a h2i
    simp only [h2a, h2i, hp, if_true]
  rw [hdisp]
  rw [hide_noProcess_spec h2a hva hact2]
  have hfi3 : ovFind (ovSet (addToQueue ⟨owner, t, st.clock⟩
      { st with
        overlays := ovSet st.overlays ⟨owner, t, st.clock⟩
          { id := ⟨owner, t, st.clock⟩, overlayType := t, options := opts, owner := owner,
            priority := p, isVisible := false, createdAt := st.clock }
        clock := st.clock + 1 }).overlays a { oa with isVisible := false })
      ⟨owner, t, st.clock⟩
      = some
          { id := ⟨owner, t, st.clock⟩, overlayType := t, options := opts, owner := owner,
            priority := p, isVisible := false, createdAt := st.clock } := by
    rw [ovFind_ovSet_ne _ _ (fun hh => hai hh.symm)]
    exact h2i
  rw [show_spec hfi3]
  refine ⟨rfl, ?_, ?_, ?_⟩
  · show (ovFind (ovSet _ ⟨owner, t, st.clock⟩ _) ⟨owner, t, st.clock⟩).map (·.isVisible)
      = some true
    rw [ovFind_ovSet_self]
    rfl
  · show (ovFind (ovSet _ ⟨owner, t, st.clock⟩ _) a).map (·.isVisible) = some false
    rw [ovFind_ovSet_ne _ _ hai]
    rw [ovFind_ovSet_self]
    rfl
  · intro hmem
    have hmem' := List.mem_filter.mp hmem
    have hq2 := hmem'.1
    rcases mem_addToQueue hq2 with h' | h'
    · exact hai h'
    · exact hI.activeNotQueued a ha h'

/-- Witness for `preemption_amended` at a concrete state: overlay `"a"`
(priority 1) is active, and `"b"` is registered with priority 2. -/
theorem preemption_amended_witness :
    (registerOverlay "b" "t2" {} 2 (ovRun [.register "a" "t1" {} 1])).2.activeOverlayId
        = some ⟨"b", "t2", 1⟩ ∧
    (ovFind (registerOverlay "b" "t2" {} 2
      (ovRun [.register "a" "t1" {} 1])).2.overlays ⟨"b", "t2", 1⟩).map (·.isVisible)
      = some true ∧
    (ovFind (registerOverlay "b" "t2" {} 2
      (ovRun [.register "a" "t1" {} 1])).2.overlays ⟨"a", "t1", 0⟩).map (·.isVisible)
      = some false ∧
    (⟨"a", "t1", 0⟩ : OverlayId) ∉ (registerOverlay "b" "t2" {} 2
      (ovRun [.register "a" "t1" {} 1])).2.overlayQueue := by
  exact preemption_amended (ovRun [.register "a" "t1" {} 1])
    (ovInv_run [.register "a" "t1" {} 1]) ⟨"a", "t1", 0⟩
    ⟨⟨"a", "t1", 0⟩, "t1", {}, "a", 1, true, 0⟩ (by decide) (by decide)
    "b" "t2" {} 2 (by decide)

/-- C10 counterexample: after registering an active overlay `"a"`, a queued
overlay `"b"`, and then removing `"b"` via `removeOverlayById`, the waiting
queue still contains `"b"`'s id while the overlay is gone from storage — a
queued id need not refer to a stored overlay, because `removeOverlayById`
never purges the removed id from `overlayQueue`. -/
theorem queue_dangling_counterexample :
    (ovRun danglingQueueOps).overlayQueue = [⟨"b", "u", 1⟩] ∧
    ovFind (ovRun danglingQueueOps).overlays ⟨"b", "u", 1⟩ = none := by
  decide

/-- C10 amended: after every sequence of public operations, the active
overlay's id is never in the waiting queue, and every queued id that still
refers to a stored overlay refers to a hidden one — but queued ids may
dangle (refer to no stored overlay) after a queued overlay is removed. -/
theorem queue_active_disjoint (ops : List OvOp) :
    (∀ a, (ovRun ops).activeOverlayId = some a → a ∉ (ovRun ops).overlayQueue) ∧
    (∀ i ∈ (ovRun ops).overlayQueue, ∀ o,
      ovFind (ovRun ops).overlays i = some o → o.isVisible = false) := by
  have hI := ovInv_run ops
  refine ⟨hI.activeNotQueued, ?_⟩
  intro i hiq o hfo
  cases hv : o.isVisible
  · rfl
  · have hvis := hI.visibleIsActive i o hfo hv
    exact absurd hiq (hI.activeNotQueued i hvis)

/-- Witness for `queue_active_disjoint`: with `"a"` active and `"b"` queued,
the active id is not in the queue and the queued overlay is hidden. -/
theorem queue_active_disjoint_witness :
    (⟨"a", "t", 0⟩ : OverlayId)
      ∉ (ovRun [.register "a" "t" {} 5, .register "b" "u" {} 1]).overlayQueue := by
  exact (queue_active_disjoint [.register "a" "t" {} 5, .register "b" "u" {} 1]).1
    ⟨"a", "t", 0⟩ (by decide)

/-! ### Per-(owner, type) counting, for the duplicate-registration policy -/

theorem filter_cons_length_eq {α : Type} {p : α → Bool} {x y : α} (hxy : p x = p y)
    {l1 l2 : List α} (h : (l1.filter p).length = (l2.filter p).length) :
    ((x :: l1).filter p).length = ((y :: l2).filter p).length := by
  rw [List.filter_cons, List.filter_cons, hxy]
  by_cases hy : p y = true
  · rw [if_pos hy, if_pos hy]
    simp only [List.length_cons, h]
  · rw [if_neg hy, if_neg hy]
    exact h

theorem filter_cons_length_le {α : Type} {p : α → Bool} {x : α} {l1 l2 : List α}
    (h : (l1.filter p).length ≤ (l2.filter p).length) :
    ((x :: l1).filter p).length ≤ ((x :: l2).filter p).length := by
  rw [List.filter_cons, List.filter_cons]
  by_cases hx : p x = true
  · rw [if_pos hx, if_pos hx]
    simp only [List.length_cons]
    omega
  · rw [if_neg hx, if_neg hx]
    exact h

theorem filter_cons_length_add {α : Type} {p : α → Bool} {x : α} {l1 l2 : List α}
    (n : Nat) (h : (l1.filter p).length + n = (l2.filter p).length) :
    ((x :: l1).filter p).length + n = ((x :: l2).filter p).length := by
  rw [List.filter_cons, List.filter_cons]
  by_cases hx : p x = true
  · rw [if_pos hx, if_pos hx]
    simp only [List.length_cons]
    omega
  · rw [if_neg hx, if_neg hx]
    exact h

theorem countf_ovSet_same (ow ty : String) (b : Bool) :
    ∀ (m : List (OverlayId × StoredOverlay)) (k : OverlayId) (v : StoredOverlay),
      ovFind m k = some v →
      ((ovSet m k { v with isVisible := b }).filter
        (fun e => e.2.owner = ow ∧ e.2.overlayType = ty)).length
      = (m.filter (fun e => e.2.owner = ow ∧ e.2.overlayType = ty)).length := by
  intro m
  induction m with
  | nil => intro k v h; simp [ovFind] at h
  | cons e rest ih =>
    intro k v h
    obtain ⟨a, w⟩ := e
    by_cases he : a = k
    · simp only [ovFind, if_pos he] at h
      cases h
      subst he
      rw [show ovSet ((a, v) :: rest) a { v with isVisible := b }
        = (a, { v with isVisible := b }) :: rest by simp [ovSet]]
      exact filter_cons_length_eq
        (p := fun e => decide (e.2.owner = ow ∧ e.2.overlayType = ty))
        (x := (a, { v with isVisible := b })) (y := (a, v)) rfl rfl
    · simp only [ovFind, if_neg he] at h
      rw [show ovSet ((a, w) :: rest) k { v with isVisible := b }
        = (a, w) :: ovSet rest k { v with isVisible := b } by simp [ovSet, he]]
      exact filter_cons_length_eq (x := (a, w)) (y := (a, w)) rfl (ih k v h)

theorem countf_ovSet_fresh (ow ty : String) :
    ∀ (m : List (OverlayId × StoredOverlay)) (k : OverlayId) (v : StoredOverlay),
      ovFind m k = none →
      ((ovSet m k v).filter (fun e => e.2.owner = ow ∧ e.2.overlayType = ty)).length
      = (m.filter (fun e => e.2.owner = ow ∧ e.2.overlayType = ty)).length
        + (if v.owner = ow ∧ v.overlayType = ty then 1 else 0) := by
  intro m
  induction m with
  | nil =>
    intro k v _
    rw [show ovSet ([] : List (OverlayId × StoredOverlay)) k v = [(k, v)] from rfl]
    rw [List.filter_cons]
    by_cases hP : v.owner = ow ∧ v.overlayType = ty
    · rw [if_pos (by exact decide_eq_true hP), if_pos hP]
      rfl
    · rw [if_neg (by simp [hP]), if_neg hP]
      rfl
  | cons e rest ih =>
    intro k v h
    obtain ⟨a, w⟩ := e
    by_cases he : a = k
    · simp only [ovFind, if_pos he] at h
      exact Option.noConfusion h
    · simp only [ovFind, if_neg he] at h
      rw [show ovSet ((a, w) :: rest) k v = (a, w) :: ovSet rest k v by simp [ovSet, he]]
      rw [List.filter_cons, List.filter_cons]
      have hrec := ih k v h
      by_cases hPa : (fun (e : OverlayId × StoredOverlay) =>
          decide (e.2.owner = ow ∧ e.2.overlayType = ty)) (a, w) = true
      · rw [if_pos hPa, if_pos hPa]
        simp only [List.length_cons]
        omega
      · rw [if_neg hPa, if_neg hPa]
        exact hrec

theorem countf_ovDel_le (ow ty : String) :
    ∀ (m : List (OverlayId × StoredOverlay)) (k : OverlayId),
      ((ovDel m k).filter (fun e => e.2.owner = ow ∧ e.2.overlayType = ty)).length
      ≤ (m.filter (fun e => e.2.owner = ow ∧ e.2.overlayType = ty)).length := by
  intro m
  induction m with
  | nil => intro k; simp [ovDel]
  | cons e rest ih =>
    intro k
    obtain ⟨a, w⟩ := e
    by_cases he : a = k
    · rw [show ovDel ((a, w) :: rest) k = rest by simp [ovDel, he]]
      rw [List.filter_cons]
      by_cases hPa : (fun (e : OverlayId × StoredOverlay) =>
          decide (e.2.owner = ow ∧ e.2.overlayType = ty)) (a, w) = true
      · rw [if_pos hPa]
        simp only [List.length_cons]
        omega
      · rw [if_neg hPa]
    · rw [show ovDel ((a, w) :: rest) k = (a, w) :: ovDel rest k by simp [ovDel, he]]
      exact filter_cons_length_le (ih k)

theorem countf_ovDel_matching (ow ty : String) :
    ∀ (m : List (OverlayId × StoredOverlay)) (k : OverlayId) (v : StoredOverlay),
      ovFind m k = some v → v.owner = ow → v.overlayType = ty →
      ((ovDel m k).filter (fun e => e.2.owner = ow ∧ e.2.overlayType = ty)).length + 1
      = (m.filter (fun e => e.2.owner = ow ∧ e.2.overlayType = ty)).length := by
  intro m
  induction m with
  | nil => intro k v h; simp [ovFind] at h
  | cons e rest ih =>
    intro k v h how hty
    obtain ⟨a, w⟩ := e
    by_cases he : a = k
    · simp only [ovFind, if_pos he] at h
      cases h
      rw [show ovDel ((a, v) :: rest) k = rest by simp [ovDel, he]]
      rw [List.filter_cons, if_pos (by exact decide_eq_true ⟨how, hty⟩)]
      rfl
    · simp only [ovFind, if_neg he] at h
      rw [show ovDel ((a, w) :: rest) k = (a, w) :: ovDel rest k by simp [ovDel, he]]
      exact filter_cons_length_add 1 (ih k v h how hty)

theorem show_find_fields (i : OverlayId) (st : OvState) (k : OverlayId) :
    (ovFind (showOverlayById i st).2.overlays k).map (fun o => (o.owner, o.overlayType))
      = (ovFind st.overlays k).map (fun o => (o.owner, o.overlayType)) := by
  cases hf : ovFind st.overlays i with
  | none => rw [show_none hf]
  | some o =>
    rw [show_spec hf]
    show (ovFind (ovSet st.overlays i { o with isVisible := true }) k).map _ = _
    by_cases hk : k = i
    · subst hk
      rw [ovFind_ovSet_self, hf]
      rfl
    · rw [ovFind_ovSet_ne _ _ hk]

theorem hide_find_fields (i : OverlayId) (pq : Bool) (st : OvState) (k : OverlayId) :
    (ovFind (hideOverlayById i pq st).2.overlays k).map (fun o => (o.owner, o.overlayType))
      = (ovFind st.overlays k).map (fun o => (o.owner, o.overlayType)) := by
  have hset : ∀ (o : StoredOverlay), ovFind st.overlays i = some o →
      (ovFind (ovSet st.overlays i { o with isVisible := false }) k).map
        (fun o => (o.owner, o.overlayType))
      = (ovFind st.overlays k).map (fun o => (o.owner, o.overlayType)) := by
    intro o hf
    by_cases hk : k = i
    · subst hk
      rw [ovFind_ovSet_self, hf]
      rfl
    · rw [ovFind_ovSet_ne _ _ hk]
  cases hf : ovFind st.overlays i with
  | none => rw [hide_missing hf]
  | some o =>
    cases hv : o.isVisible with
    | false => rw [hide_invisible pq hf hv]
    | true =>
      by_cases hact : st.activeOverlayId = some i
      · cases pq with
        | false =>
          rw [hide_noProcess_spec hf hv hact]
          exact hset o hf
        | true =>
          cases hq : st.overlayQueue with
          | nil =>
            rw [hide_noQueue_spec hf hv hact hq]
            exact hset o hf
          | cons n rest =>
            rw [hide_process_spec hf hv hact hq]
            rw [show_find_fields]
            exact hset o hf
      · rw [hide_notActive_spec hf hv hact]
        exact hset o hf

theorem count_show (i : OverlayId) (st : OvState) (ow ty : String) :
    countOwnerType (showOverlayById i st).2 ow ty = countOwnerType st ow ty := by
  cases hf : ovFind st.overlays i with
  | none => rw [show_none hf]
  | some o =>
    rw [show_spec hf]
    exact countf_ovSet_same ow ty true st.overlays i o hf

theorem count_hide (i : OverlayId) (pq : Bool) (st : OvState) (ow ty : String) :
    countOwnerType (hideOverlayById i pq st).2 ow ty = countOwnerType st ow ty := by
  cases hf : ovFind st.overlays i with
  | none => rw [hide_missing hf]
  | some o =>
    cases hv : o.isVisible with
    | false => rw [hide_invisible pq hf hv]
    | true =>
      by_cases hact : st.activeOverlayId = some i
      · cases pq with
        | false =>
          rw [hide_noProcess_spec hf hv hact]
          exact countf_ovSet_same ow ty false st.overlays i o hf
        | true =>
          cases hq : st.overlayQueue with
          | nil =>
            rw [hide_noQueue_spec hf hv hact hq]
            exact countf_ovSet_same ow ty false st.overlays i o hf
          | cons n rest =>
            rw [hide_process_spec hf hv hact hq, count_show]
            exact countf_ovSet_same ow ty false st.overlays i o hf
      · rw [hide_notActive_spec hf hv hact]
        exact countf_ovSet_same ow ty false st.overlays i o hf

theorem count_addToQueue (i : OverlayId) (st : OvState) (ow ty : String) :
    countOwnerType (addToQueue i st) ow ty = countOwnerType st ow ty := by
  unfold countOwnerType
  rw [addToQueue_overlays]

theorem count_remove_le (i : OverlayId) (st : OvState) (ow ty : String) :
    countOwnerType (removeOverlayById i st).2 ow ty ≤ countOwnerType st ow ty := by
  cases hf : ovFind st.overlays i with
  | none => rw [remove_missing hf]
  | some o =>
    rw [remove_spec hf]
    calc ((ovDel (hideOverlayById i true st).2.overlays i).filter
            (fun e => e.2.owner = ow ∧ e.2.overlayType = ty)).length
        ≤ countOwnerType (hideOverlayById i true st).2 ow ty :=
          countf_ovDel_le ow ty _ i
      _ = countOwnerType st ow ty := count_hide i true st ow ty

theorem count_remove_matching {st : OvState} {i : OverlayId} {o : StoredOverlay}
    {ow ty : String} (hf : ovFind st.overlays i = some o)
    (how : o.owner = ow) (hty : o.overlayType = ty) :
    countOwnerType (removeOverlayById i st).2 ow ty + 1 = countOwnerType st ow ty := by
  rw [remove_spec hf]
  have hfields := hide_find_fields i true st i
  rw [hf] at hfields
  cases hfo' : ovFind (hideOverlayById i true st).2.overlays i with
  | none =>
    rw [hfo'] at hfields
    exact Option.noConfusion hfields
  | some o' =>
    rw [hfo'] at hfields
    injection hfields with hpair
    have hpair' : (o'.owner, o'.overlayType) = (o.owner, o.overlayType) := hpair
    have hfst : o'.owner = o.owner := congrArg Prod.fst hpair'
    have hsnd : o'.overlayType = o.overlayType := congrArg Prod.snd hpair'
    have how' : o'.owner = ow := by rw [hfst, how]
    have hty' : o'.overlayType = ty := by rw [hsnd, hty]
    calc ((ovDel (hideOverlayById i true st).2.overlays i).filter
            (fun e => e.2.owner = ow ∧ e.2.overlayType = ty)).length + 1
        = countOwnerType (hideOverlayById i true st).2 ow ty :=
          countf_ovDel_matching ow ty _ i o' hfo' how' hty'
      _ = countOwnerType st ow ty := count_hide i true st ow ty

theorem count_registerDispatch (i : OverlayId) (st1 : OvState) (ow ty : String) :
    countOwnerType (registerDispatch i st1) ow ty = countOwnerType st1 ow ty := by
  unfold registerDispatch
  cases hact : st1.activeOverlayId with
  | none => rw [count_show]
  | some a =>
    cases hfa : ovFind (addToQueue i st1).overlays a with
    | none =>
      simp only [hfa]
      rw [count_addToQueue]
    | some ao =>
      cases hfi : ovFind (addToQueue i st1).overlays i with
      | none =>
        simp only [hfa, hfi]
        rw [count_addToQueue]
      | some no =>
        simp only [hfa, hfi]
        by_cases hp : ao.priority < no.priority
        · rw [if_pos hp]
          rw [count_show, count_hide, count_addToQueue]
        · rw [if_neg hp]
          rw [count_addToQueue]

theorem count_register {st : OvState} (hI : OvInv st) (owner t : String)
    (opts : OverlayOptions) (p : Int) (ow ty : String) :
    countOwnerType (registerOverlay owner t opts p st).2 ow ty
      = countOwnerType st ow ty + (if owner = ow ∧ t = ty then 1 else 0) := by
  have hres : (registerOverlay owner t opts p st).2
      = registerDispatch ⟨owner, t, st.clock⟩
          { st with
            overlays := ovSet st.overlays ⟨owner, t, st.clock⟩
              { id := ⟨owner, t, st.clock⟩, overlayType := t, options := opts,
                owner := owner, priority := p, isVisible := false, createdAt := st.clock }
            clock := st.clock + 1 } := rfl
  rw [hres, count_registerDispatch]
  show ((ovSet st.overlays ⟨owner, t, st.clock⟩ _).filter _).length = _
  rw [countf_ovSet_fresh ow ty st.overlays ⟨owner, t, st.clock⟩ _
    (register_fresh hI owner t)]
  rfl

theorem count_checkRestore (owner : String) (st : OvState) (ow ty : String) :
    countOwnerType (checkAndRestoreOverlaysByOwner owner st) ow ty
      = countOwnerType st ow ty := by
  unfold checkAndRestoreOverlaysByOwner
  generalize st.overlays.map (·.1) = L
  induction L generalizing st with
  | nil => rfl
  | cons j rest ih =>
    rw [List.foldl_cons]
    rw [ih]
    cases hf : ovFind st.overlays j with
    | none => simp only [hf]
    | some o =>
      simp only [hf]
      by_cases hcond : o.owner = owner ∧ o.options.autoRestore ≠ some false
          ∧ o.isVisible = false
      · rw [if_pos hcond]
        cases hact : st.activeOverlayId with
        | some a => rw [count_addToQueue]
        | none => rw [count_show]
      · rw [if_neg hcond]

theorem count_clearAll (st : OvState) (ow ty : String) :
    countOwnerType (clearAllOverlays st) ow ty = 0 := by
  unfold clearAllOverlays countOwnerType
  rw [show ({ ((st.overlays.map (·.1)).foldl (fun s j => (removeOverlayById j s).2) st) with
      overlayQueue := [], activeOverlayId := none } : OvState).overlays
    = ((st.overlays.map (·.1)).foldl (fun s j => (removeOverlayById j s).2) st).overlays
    from rfl]
  rw [clearAll_overlays_nil]
  rfl

theorem fold_remove_count_le (ow ty : String) (L : List OverlayId) :
    ∀ st : OvState,
      countOwnerType (L.foldl (fun s j => (removeOverlayById j s).2) st) ow ty
        ≤ countOwnerType st ow ty := by
  induction L with
  | nil => intro st; exact Nat.le_refl _
  | cons j rest ih =>
    intro st
    rw [List.foldl_cons]
    exact Nat.le_trans (ih _) (count_remove_le j st ow ty)

theorem count_removeByOwner_le (owner : String) (st : OvState) (ow ty : String) :
    countOwnerType (removeOverlaysByOwner owner st).2 ow ty ≤ countOwnerType st ow ty := by
  rw [removeByOwner_state]
  exact fold_remove_count_le ow ty _ st

theorem mem_ovFind_nodup {k : OverlayId} {v : StoredOverlay} :
    ∀ {m : List (OverlayId × StoredOverlay)}, (k, v) ∈ m → (m.map (·.1)).Nodup →
      ovFind m k = some v := by
  intro m
  induction m with
  | nil => intro h _; exact absurd h (List.not_mem_nil _)
  | cons e rest ih =>
    intro h hnd
    obtain ⟨a, b⟩ := e
    rcases List.mem_cons.mp h with h' | h'
    · injection h' with h1 h2
      subst h1
      subst h2
      simp [ovFind]
    · by_cases he : a = k
      · subst he
        exfalso
        have : a ∈ rest.map (·.1) := List.mem_map.mpr ⟨(a, v), h', rfl⟩
        have hhead := (List.nodup_cons.mp hnd).1
        exact hhead this
      · rw [show ovFind ((a, b) :: rest) k = ovFind rest k by simp [ovFind, he]]
        exact ih h' (List.nodup_cons.mp hnd).2

theorem any_ownerType_iff (st : OvState) (s t : String) :
    (st.overlays.any (fun e => e.2.owner = s ∧ e.2.overlayType = t)) = true
      ↔ 0 < countOwnerType st s t := by
  unfold countOwnerType
  rw [List.any_eq_true, List.length_pos]
  constructor
  · intro ⟨x, hx, hpx⟩ h
    have : x ∈ st.overlays.filter (fun e => e.2.owner = s ∧ e.2.overlayType = t) :=
      List.mem_filter.mpr ⟨hx, hpx⟩
    rw [h] at this
    exact absurd this (List.not_mem_nil x)
  · intro h
    cases hl : st.overlays.filter (fun e => e.2.owner = s ∧ e.2.overlayType = t) with
    | nil => exact absurd hl h
    | cons x xs =>
      have hx : x ∈ st.overlays.filter (fun e => e.2.owner = s ∧ e.2.overlayType = t) := by
        rw [hl]
        exact List.mem_cons_self _ _
      have := List.mem_filter.mp hx
      exact ⟨x, this.1, this.2⟩

theorem shown_preserves_dedup {st : OvState} (hI : OvInv st)
    (hD : ∀ ow ty, countOwnerType st ow ty ≤ 1) (s t : String)
    (opts : OverlayOptions) (p : Int) :
    ∀ ow ty, countOwnerType (handleOverlayShown s t opts p st) ow ty ≤ 1 := by
  intro ow ty
  simp only [handleOverlayShown]
  by_cases hdup : st.overlays.any (fun e => e.2.owner = s ∧ e.2.overlayType = t)
  · rw [if_pos hdup]
    cases hfind : st.overlays.find? (fun e => e.2.owner = s ∧ e.2.overlayType = t) with
    | none =>
      exfalso
      obtain ⟨x, hx, hpx⟩ := List.any_eq_true.mp hdup
      have := List.find?_eq_none.mp hfind x hx
      exact this hpx
    | some d =>
      obtain ⟨dId, dv⟩ := d
      have hmem := List.mem_of_find?_eq_some hfind
      have hprop : dv.owner = s ∧ dv.overlayType = t := by
        have := List.find?_some hfind
        exact of_decide_eq_true this
      have hfd : ovFind st.overlays dId = some dv := mem_ovFind_nodup hmem hI.keysNodup
      rw [count_register (remove_preserves hI dId) s t opts p ow ty]
      by_cases hEq : s = ow ∧ t = ty
      · rw [if_pos hEq]
        have hmatch := count_remove_matching hfd
          (by rw [hprop.1, hEq.1]) (by rw [hprop.2, hEq.2])
        have hle := hD ow ty
        omega
      · rw [if_neg hEq]
        have hle := count_remove_le dId st ow ty
        have := hD ow ty
        omega
  · rw [if_neg hdup]
    rw [count_register hI s t opts p ow ty]
    by_cases hEq : s = ow ∧ t = ty
    · rw [if_pos hEq]
      have hzero : countOwnerType st s t = 0 := by
        by_contra hc
        exact hdup ((any_ownerType_iff st s t).mpr (Nat.pos_of_ne_zero hc))
      obtain ⟨h1, h2⟩ := hEq
      subst h1
      subst h2
      omega
    · rw [if_neg hEq]
      have := hD ow ty
      omega

theorem step_preserves_dedup {st : OvState} (hI : OvInv st)
    (hD : ∀ ow ty, countOwnerType st ow ty ≤ 1) (op : OvOp)
    (hop : isDirectRegister op = false) :
    ∀ ow ty, countOwnerType (ovStep st op) ow ty ≤ 1 := by
  intro ow ty
  cases op with
  | register owner t opts p => exact absurd hop (by simp [isDirectRegister])
  | shown s t opts p => exact shown_preserves_dedup hI hD s t opts p ow ty
  | removeById i => exact Nat.le_trans (count_remove_le i st ow ty) (hD ow ty)
  | removeByOwner o => exact Nat.le_trans (count_removeByOwner_le o st ow ty) (hD ow ty)
  | checkRestore o =>
    rw [show ovStep st (.checkRestore o) = checkAndRestoreOverlaysByOwner o st from rfl]
    rw [count_checkRestore]
    exact hD ow ty
  | clearAll =>
    rw [show ovStep st .clearAll = clearAllOverlays st from rfl]
    rw [count_clearAll]
    exact Nat.zero_le 1

theorem dedup_run_aux :
    ∀ (ops : List OvOp) (st0 : OvState), OvInv st0 →
      (∀ ow ty, countOwnerType st0 ow ty ≤ 1) →
      (∀ op ∈ ops, isDirectRegister op = false) →
      ∀ ow ty, countOwnerType (ops.foldl ovStep st0) ow ty ≤ 1 := by
  intro ops
  induction ops with
  | nil => intro st0 _ hD _; exact hD
  | cons op rest ih =>
    intro st0 hI0 hD0 hops
    rw [List.foldl_cons]
    exact ih _ (ovStep_preserves hI0 op)
      (step_preserves_dedup hI0 hD0 op (hops op (List.mem_cons_self _ _)))
      (fun op' hop' => hops op' (List.mem_cons_of_mem _ hop'))

/-- C8 counterexample: two direct `registerOverlay` calls with the same
`(owner, type)` at different ticks leave TWO stored overlays for that pair —
`registerOverlay` itself performs no duplicate removal; the
remove-existing-first behaviour lives in the `OVERLAY_SHOWN` event handler
(`handleOverlayShown`), not in `registerOverlay`. -/
theorem duplicate_register_counterexample :
    countOwnerType (ovRun duplicateRegisterOps) "o" "t" = 2 ∧
    ¬ countOwnerType (ovRun duplicateRegisterOps) "o" "t" ≤ 1 := by
  decide

/-- C8 amended: registration routed through the `OVERLAY_SHOWN` handler
(`handleOverlayShown`) removes an existing overlay with the same
`(owner, type)` before registering, so along any sequence of public
operations that contains no direct `registerOverlay` call, at most one
stored overlay exists per `(owner, type)` pair — a silent replace; direct
`registerOverlay` calls do not deduplicate. -/
theorem dedup_amended (ops : List OvOp)
    (h : ∀ op ∈ ops, isDirectRegister op = false) :
    ∀ ow ty, countOwnerType (ovRun ops) ow ty ≤ 1 := by
  unfold ovRun
  refine dedup_run_aux ops initialOvState ovInv_initial ?_ h
  intro ow ty
  show (List.filter _ []).length ≤ 1
  simp

/-- Witness for `dedup_amended`: two `OVERLAY_SHOWN`-driven registrations for
the same `(owner, type)` leave exactly one stored overlay. -/
theorem dedup_amended_witness :
    countOwnerType (ovRun [.shown "o" "t" {} 0, .shown "o" "t" {} 0]) "o" "t" ≤ 1 := by
  exact dedup_amended [.shown "o" "t" {} 0, .shown "o" "t" {} 0] (by decide) "o" "t"

end ContentSecurityToolkit
